import Mathlib

/-!
Verification of the CineGraph-AI semantic annotation engine
(`backend/app/ingestion/semantic_annotator.py` and
`backend/app/llm/providers/base.py`) against its specification.

The development is a shallow embedding of the Python code:
* Python/JSON dynamic values are modelled by `PyJson`; `json.loads` is
  modelled by `json_loads` (a JSON parser over `List Char`).
* Every recursive scanning function is written structurally (with an
  explicit fuel argument bounded by the input length where needed) so
  concrete evaluation by `decide`/`rfl` works.
* Python numbers (JSON ints and floats, subtitle timestamps,
  durations) are modelled by the exact decimal type `PyNum`; no claim
  depends on binary floating-point rounding.
* The LLM backend (`self.llm.chat`) is an external effect; it is
  modelled by an oracle `Nat → Except String String` indexed by a
  global call counter threaded through the engine, so a "stubbed
  backend" is a choice of oracle.  File-system effects (checkpoint and
  output files) are modelled by explicit values recorded in the run
  result.
-/

/-- An exact decimal number with value `m / 10 ^ s`, modelling the
Python numbers flowing through the annotator (JSON ints and floats,
subtitle timestamps, durations).  All timestamps in play are decimal
literals and the only arithmetic on them is subtraction and rounding
to two decimals, which are exact here; no claim depends on binary
floating-point rounding. -/
structure PyNum where
  m : Int
  s : Nat
deriving DecidableEq, Repr

namespace PyNum

def ofNat (n : Nat) : PyNum := ⟨(n : Int), 0⟩

instance : OfNat PyNum n := ⟨PyNum.ofNat n⟩

/-- Value-level equality with a natural number (`q == n` in Python,
e.g. matching an explicit index field against an int key). -/
def beqNat (q : PyNum) (n : Nat) : Bool := q.m == (n : Int) * (10 : Int) ^ q.s

/-- Value-level comparison `a < b`. -/
def lt (a b : PyNum) : Bool :=
  a.m * (10 : Int) ^ (max a.s b.s - a.s) < b.m * (10 : Int) ^ (max a.s b.s - b.s)

/-- Exact subtraction `a - b`. -/
def sub (a b : PyNum) : PyNum :=
  ⟨a.m * (10 : Int) ^ (max a.s b.s - a.s) - b.m * (10 : Int) ^ (max a.s b.s - b.s),
   max a.s b.s⟩

/-- Model of Python `round(x, 2)`: exact when the value already has at
most two decimals (always the case for the durations in play);
otherwise rounds half-away-from-zero at two decimals (the binary-float
half-even subtleties of `round` are irrelevant to every claim). -/
def round2 (a : PyNum) : PyNum :=
  if a.s ≤ 2 then a
  else
    let d : Int := (10 : Int) ^ (a.s - 2)
    let q := (2 * a.m + (if a.m < 0 then -d else d)) / (2 * d)
    ⟨q, 2⟩

end PyNum

/-- A Python/JSON value (the dynamic values produced by `json.loads`
and handled by the annotator).  Python dicts are modelled as ordered
association lists with unique keys (CPython dicts preserve insertion
order; duplicate keys in JSON source collapse, last value wins, first
position kept).  Numbers (both int and float) are modelled exactly by
`PyNum`. -/
inductive PyJson where
  | null : PyJson
  | bool : Bool → PyJson
  | num : PyNum → PyJson
  | str : String → PyJson
  | arr : List PyJson → PyJson
  | obj : List (String × PyJson) → PyJson

instance : Inhabited PyJson := ⟨PyJson.null⟩

namespace PyJson

/-- `d.get(k)` on a dict: `none` models Python `None` for a missing key. -/
def get : PyJson → String → Option PyJson
  | .obj kvs, k => (kvs.find? (fun kv => kv.1 == k)).map Prod.snd
  | _, _ => none

/-- `d.get(k, default)` on a dict. -/
def getD (j : PyJson) (k : String) (dflt : PyJson) : PyJson :=
  (j.get k).getD dflt

/-- Python truthiness of a value (`bool(v)`). -/
def truthy : PyJson → Bool
  | .null => false
  | .bool b => b
  | .num q => q.m != 0
  | .str s => s != ""
  | .arr l => !l.isEmpty
  | .obj l => !l.isEmpty

/-- `a or b` in Python (value-level short-circuit on truthiness). -/
def pyOr (a b : PyJson) : PyJson := if a.truthy then a else b

/-- `k in d` for a dict. -/
def hasKey (j : PyJson) (k : String) : Bool := (j.get k).isSome

/-- Insert into a dict the way `d[k] = v` does: update the value in
place if the key exists (keeping its position), else append. -/
def setKey : PyJson → String → PyJson → PyJson
  | .obj kvs, k, v =>
      if kvs.any (fun kv => kv.1 == k) then
        .obj (kvs.map (fun kv => if kv.1 = k then (k, v) else kv))
      else
        .obj (kvs ++ [(k, v)])
  | j, _, _ => j

/-- `d.pop(k, None)` / building `dict(d)` without key `k`. -/
def removeKey : PyJson → String → PyJson
  | .obj kvs, k => .obj (kvs.filter (fun kv => kv.1 != k))
  | j, _ => j

/-- Extract a string value with a default (the annotator reads
annotation fields as strings; a non-string value under these keys
would make the Python code fail later at a string method, a corner no
claim depends on). -/
def getStr (j : PyJson) (k : String) (dflt : String) : String :=
  match j.get k with
  | some (.str s) => s
  | _ => dflt

/-- Extract a number value with a default. -/
def getNum (j : PyJson) (k : String) (dflt : PyNum) : PyNum :=
  match j.get k with
  | some (.num q) => q
  | _ => dflt

/-- Extract a list-of-strings value with a default (string elements of
a JSON array; the annotator's list-valued tag fields). -/
def getStrList (j : PyJson) (k : String) (dflt : List String) : List String :=
  match j.get k with
  | some (.arr xs) => xs.filterMap (fun x => match x with | .str s => some s | _ => none)
  | _ => dflt

end PyJson

/-! ## A model of `json.loads`

A standard JSON parser over `List Char`, written with explicit fuel so
it is structurally recursive and evaluates in the kernel.  The fuel is
always instantiated with a bound larger than any possible recursion
depth for the given input, so the fuel-exhaustion branches (which
return `none`, i.e. a parse failure) are unreachable. -/

/-- JSON whitespace, as accepted by Python's `json` module. -/
def jsonWs (c : Char) : Bool := c == ' ' || c == '\t' || c == '\n' || c == '\r'

/-- Skip leading JSON whitespace. -/
def skipWs (cs : List Char) : List Char := cs.dropWhile jsonWs

/-- Decimal digits to a natural number (`none` if empty). -/
def digitsToNat (ds : List Char) : Nat :=
  ds.foldl (fun acc c => acc * 10 + (c.toNat - '0'.toNat)) 0

/-- Parse a run of decimal digits; returns the digits and the rest. -/
def takeDigits (cs : List Char) : List Char × List Char :=
  (cs.takeWhile Char.isDigit, cs.dropWhile Char.isDigit)

/-- Parse the integer part of a JSON number after an optional sign:
either a single `0` or a nonzero digit followed by digits (JSON
forbids leading zeros). -/
def parseIntPart : List Char → Option (List Char × List Char)
  | '0' :: rest => some (['0'], rest)
  | c :: rest =>
      if c.isDigit then
        let (ds, rest') := takeDigits rest
        some (c :: ds, rest')
      else none
  | [] => none

/-- Parse the optional fraction part `.digits`. -/
def parseFracPart (cs : List Char) : List Char × List Char :=
  match cs with
  | '.' :: rest =>
      let (ds, rest') := takeDigits rest
      if ds.isEmpty then ([], cs) else (ds, rest')
  | _ => ([], cs)

/-- Parse the optional exponent part `[eE][+-]?digits`; returns the
signed exponent. -/
def parseExpPart (cs : List Char) : Int × List Char :=
  match cs with
  | c :: rest =>
      if c = 'e' ∨ c = 'E' then
        match rest with
        | '+' :: rest' =>
            let (ds, rest'') := takeDigits rest'
            if ds.isEmpty then (0, cs) else ((digitsToNat ds : Int), rest'')
        | '-' :: rest' =>
            let (ds, rest'') := takeDigits rest'
            if ds.isEmpty then (0, cs) else (-(digitsToNat ds : Int), rest'')
        | _ =>
            let (ds, rest') := takeDigits rest
            if ds.isEmpty then (0, cs) else ((digitsToNat ds : Int), rest')
      else (0, cs)
  | [] => (0, cs)

/-- Numeric value of a parsed JSON number, exactly. -/
def jsonNumVal (neg : Bool) (intDs fracDs : List Char) (ex : Int) : PyNum :=
  let base : Int := (digitsToNat (intDs ++ fracDs) : Int)
  let m₀ : Int := if neg then -base else base
  if 0 ≤ ex then
    if fracDs.length ≤ ex.toNat then ⟨m₀ * (10 : Int) ^ (ex.toNat - fracDs.length), 0⟩
    else ⟨m₀, fracDs.length - ex.toNat⟩
  else ⟨m₀, fracDs.length + (-ex).toNat⟩

/-- Parse a JSON number at the head of the input. -/
def parseNumber (cs : List Char) : Option (PyJson × List Char) :=
  let (neg, cs₁) := match cs with
                    | '-' :: rest => (true, rest)
                    | _ => (false, cs)
  match parseIntPart cs₁ with
  | none => none
  | some (intDs, cs₂) =>
      let (fracDs, cs₃) := parseFracPart cs₂
      let (ex, cs₄) := parseExpPart cs₃
      some (.num (jsonNumVal neg intDs fracDs ex), cs₄)

/-- Parse four hex digits of a `\uXXXX` escape. -/
def parseHex4 : List Char → Option (Nat × List Char)
  | a :: b :: c :: d :: rest =>
      let hv : Char → Option Nat := fun ch =>
        if ch.isDigit then some (ch.toNat - '0'.toNat)
        else if 'a' ≤ ch ∧ ch ≤ 'f' then some (ch.toNat - 'a'.toNat + 10)
        else if 'A' ≤ ch ∧ ch ≤ 'F' then some (ch.toNat - 'A'.toNat + 10)
        else none
      match hv a, hv b, hv c, hv d with
      | some x, some y, some z, some w => some (((x * 16 + y) * 16 + z) * 16 + w, rest)
      | _, _, _, _ => none
  | _ => none

/-- Parse the body of a JSON string (after the opening quote), with
escapes.  Strict mode: raw control characters below `0x20` are
rejected, as in Python's `json`.  (`\uXXXX` escapes that are not valid
Lean scalar values fall back to `Char.ofNat`'s default; claims do not
use surrogate escapes.)  Fuel-structured. -/
def parseStringBody : Nat → List Char → Option (List Char × List Char)
  | 0, _ => none
  | _ + 1, [] => none
  | _ + 1, '"' :: rest => some ([], rest)
  | fuel + 1, '\\' :: e :: rest =>
      let cont := fun (c : Char) (rest' : List Char) =>
        (parseStringBody fuel rest').map (fun p => (c :: p.1, p.2))
      match e with
      | '"' => cont '"' rest
      | '\\' => cont '\\' rest
      | '/' => cont '/' rest
      | 'b' => cont '\x08' rest
      | 'f' => cont '\x0c' rest
      | 'n' => cont '\n' rest
      | 'r' => cont '\r' rest
      | 't' => cont '\t' rest
      | 'u' =>
          match parseHex4 rest with
          | some (n, rest') => cont (Char.ofNat n) rest'
          | none => none
      | _ => none
  | fuel + 1, c :: rest =>
      if c.toNat < 0x20 then none
      else (parseStringBody fuel rest).map (fun p => (c :: p.1, p.2))

/-- Insert a parsed key/value pair in front of later pairs, collapsing
a duplicate key the way a Python dict built by the JSON decoder does:
the first position is kept, the last value wins. -/
def objInsert (k : String) (v : PyJson) (kvs : List (String × PyJson)) : List (String × PyJson) :=
  if kvs.any (fun kv => kv.1 == k) then
    (k, (kvs.filter (fun kv => kv.1 == k)).foldl (fun _ kv => kv.2) v) ::
      kvs.filter (fun kv => kv.1 != k)
  else (k, v) :: kvs

mutual

/-- Parse one JSON value (leading whitespace skipped).  Fuel-structured;
mirrors the grammar accepted by `json.loads`. -/
def parseValue : Nat → List Char → Option (PyJson × List Char)
  | 0, _ => none
  | fuel + 1, cs =>
      match skipWs cs with
      | [] => none
      | '{' :: rest => (parseObjBody fuel rest).map (fun p => (.obj p.1, p.2))
      | '[' :: rest => (parseArrBody fuel rest).map (fun p => (.arr p.1, p.2))
      | '"' :: rest => (parseStringBody (rest.length + 1) rest).map (fun p => (.str (String.mk p.1), p.2))
      | 't' :: 'r' :: 'u' :: 'e' :: rest => some (.bool true, rest)
      | 'f' :: 'a' :: 'l' :: 's' :: 'e' :: rest => some (.bool false, rest)
      | 'n' :: 'u' :: 'l' :: 'l' :: rest => some (.null, rest)
      | cs' => parseNumber cs'

/-- Parse the inside of a JSON object after `{`. -/
def parseObjBody : Nat → List Char → Option (List (String × PyJson) × List Char)
  | 0, _ => none
  | fuel + 1, cs =>
      match skipWs cs with
      | '}' :: rest => some ([], rest)
      | '"' :: rest =>
          match parseStringBody (rest.length + 1) rest with
          | none => none
          | some (key, rest₁) =>
              match skipWs rest₁ with
              | ':' :: rest₂ =>
                  match parseValue fuel rest₂ with
                  | none => none
                  | some (v, rest₃) =>
                      match parseObjMore fuel rest₃ with
                      | none => none
                      | some (kvs, rest₄) => some (objInsert (String.mk key) v kvs, rest₄)
              | _ => none
      | _ => none

/-- Parse `, "key": value`* `}` continuing a JSON object. -/
def parseObjMore : Nat → List Char → Option (List (String × PyJson) × List Char)
  | 0, _ => none
  | fuel + 1, cs =>
      match skipWs cs with
      | '}' :: rest => some ([], rest)
      | ',' :: rest =>
          match skipWs rest with
          | '"' :: rest₀ =>
              match parseStringBody (rest₀.length + 1) rest₀ with
              | none => none
              | some (key, rest₁) =>
                  match skipWs rest₁ with
                  | ':' :: rest₂ =>
                      match parseValue fuel rest₂ with
                      | none => none
                      | some (v, rest₃) =>
                          match parseObjMore fuel rest₃ with
                          | none => none
                          | some (kvs, rest₄) => some (objInsert (String.mk key) v kvs, rest₄)
                  | _ => none
          | _ => none
      | _ => none

/-- Parse the inside of a JSON array after `[`. -/
def parseArrBody : Nat → List Char → Option (List PyJson × List Char)
  | 0, _ => none
  | fuel + 1, cs =>
      match skipWs cs with
      | ']' :: rest => some ([], rest)
      | _ =>
          match parseValue fuel cs with
          | none => none
          | some (v, rest) =>
              match parseArrMore fuel rest with
              | none => none
              | some (vs, rest') => some (v :: vs, rest')

/-- Parse `, value`* `]` continuing a JSON array. -/
def parseArrMore : Nat → List Char → Option (List PyJson × List Char)
  | 0, _ => none
  | fuel + 1, cs =>
      match skipWs cs with
      | ']' :: rest => some ([], rest)
      | ',' :: rest =>
          match parseValue fuel rest with
          | none => none
          | some (v, rest') =>
              match parseArrMore fuel rest' with
              | none => none
              | some (vs, rest'') => some (v :: vs, rest'')
      | _ => none

end

/-- Model of Python `json.loads` on a character list: parse one JSON
value, require only whitespace to remain (`Extra data` otherwise),
`none` models `json.JSONDecodeError`. -/
def json_loads (cs : List Char) : Option PyJson :=
  match parseValue (2 * cs.length + 8) cs with
  | some (v, rest) => if (skipWs rest).isEmpty then some v else none
  | none => none

/-! ## Cleaning of raw LLM response text

Models of the `re.sub` calls and `str.strip` used by
`parse_llm_response`, `parse_batch_llm_response` and
`BaseLLMProvider.extract_json`.  Each scanner carries fuel equal to the
input length, which is always sufficient (every step consumes at least
one character), so the fuel-exhaustion branch is unreachable. -/

/-- Python `str` whitespace (`str.strip` with no argument). -/
def pySpace (c : Char) : Bool :=
  c == ' ' || c == '\t' || c == '\n' || c == '\r' || c == '\x0b' || c == '\x0c'

/-- `s.strip()`. -/
def pyStrip (cs : List Char) : List Char :=
  ((cs.dropWhile pySpace).reverse.dropWhile pySpace).reverse

/-- The backquote character (avoiding a code-fence literal). -/
def btick : Char := Char.ofNat 96

/-- One pass of `re.sub` removing every occurrence of three backquotes
optionally followed by `json` (the greedy `(?:json)?`), left to right,
non-overlapping. -/
def subTicksJsonGo : Nat → List Char → List Char
  | 0, cs => cs
  | _ + 1, [] => []
  | fuel + 1, c :: rest =>
      if c == btick then
        match rest with
        | c₂ :: c₃ :: rest' =>
            if c₂ == btick && c₃ == btick then
              match rest' with
              | 'j' :: 's' :: 'o' :: 'n' :: rest'' => subTicksJsonGo fuel rest''
              | _ => subTicksJsonGo fuel rest'
            else c :: subTicksJsonGo fuel rest
        | _ => c :: subTicksJsonGo fuel rest
      else c :: subTicksJsonGo fuel rest

def subTicksJson (cs : List Char) : List Char := subTicksJsonGo cs.length cs

/-- `re.sub` removing every occurrence of three backquotes. -/
def subTicksGo : Nat → List Char → List Char
  | 0, cs => cs
  | _ + 1, [] => []
  | fuel + 1, c :: rest =>
      if c == btick then
        match rest with
        | c₂ :: c₃ :: rest' =>
            if c₂ == btick && c₃ == btick then subTicksGo fuel rest'
            else c :: subTicksGo fuel rest
        | _ => c :: subTicksGo fuel rest
      else c :: subTicksGo fuel rest

def subTicks (cs : List Char) : List Char := subTicksGo cs.length cs

/-- Skip to just after the first occurrence of a `think`-closing tag
(`none` if there is none). -/
def afterThinkClose : List Char → Option (List Char)
  | [] => none
  | '<' :: '/' :: 't' :: 'h' :: 'i' :: 'n' :: 'k' :: '>' :: rest => some rest
  | _ :: rest => afterThinkClose rest

/-- Model of stripping reasoning segments, the non-greedy DOTALL
pattern on `think`-tags: at each opening tag, remove up to the first
closing tag; a dangling opening tag with no later closing tag matches
nothing (and then no later occurrence can match either). -/
def removeThinkGo : Nat → List Char → List Char
  | 0, cs => cs
  | _ + 1, [] => []
  | fuel + 1, '<' :: 't' :: 'h' :: 'i' :: 'n' :: 'k' :: '>' :: rest =>
      match afterThinkClose rest with
      | some rest' => removeThinkGo fuel rest'
      | none => '<' :: 't' :: 'h' :: 'i' :: 'n' :: 'k' :: '>' :: rest
  | fuel + 1, c :: rest => c :: removeThinkGo fuel rest

def removeThink (cs : List Char) : List Char := removeThinkGo cs.length cs

/-- Consume one or more non-`>` characters then a `>` (tail of an
opening/closing tag); `afterGt` requires at least one non-`>` first. -/
def afterGt1 : List Char → Option (List Char)
  | [] => none
  | '>' :: rest => some rest
  | _ :: rest => afterGt1 rest

def afterGt : List Char → Option (List Char)
  | [] => none
  | '>' :: _ => none
  | _ :: rest => afterGt1 rest

/-- Match `</` then one or more non-`>` then `>` at the head. -/
def closeTagAfter : List Char → Option (List Char)
  | '<' :: '/' :: rest => afterGt rest
  | _ => none

/-- Skip to just after the first closing tag (lazy `.*?</[^>]+>`). -/
def findCloseTag : List Char → Option (List Char)
  | [] => none
  | c :: rest =>
      match closeTagAfter (c :: rest) with
      | some r => some r
      | none => findCloseTag rest

/-- Model of `re.sub(r'<[^>]+>.*?</[^>]+>', '', text, flags=DOTALL)`
with leftmost-first, lazy matching: at each `<` that begins a
well-formed opening tag, remove through the first closing tag after
it; if no closing tag follows, the match at this position fails and
scanning resumes at the next character. -/
def removeTagsGo : Nat → List Char → List Char
  | 0, cs => cs
  | _ + 1, [] => []
  | fuel + 1, c :: rest =>
      if c == '<' then
        match afterGt rest with
        | some afterOpen =>
            match findCloseTag afterOpen with
            | some r => removeTagsGo fuel r
            | none => c :: removeTagsGo fuel rest
        | none => c :: removeTagsGo fuel rest
      else c :: removeTagsGo fuel rest

def removeTags (cs : List Char) : List Char := removeTagsGo cs.length cs

/-! ## Balanced top-level extraction

Model of the `_extract_top_level_object` / `_extract_top_level_array`
scanners in `parse_llm_response` and `parse_batch_llm_response`: a
single left-to-right pass tracking string state (`in_str`), escape
state and bracket depth of one bracket kind; returns the slice from
the first opening bracket at depth zero through its matching close.
The accumulator models Python's `text[start:i+1]` slice: it is active
exactly while `start` is set, collects every character, and starts
with the opening bracket. -/

def pushAcc (acc : Option (List Char)) (ch : Char) : Option (List Char) :=
  acc.map (fun l => l ++ [ch])

/-- The action of the scanner on one character: either return the
completed slice or continue with an updated state. -/
inductive ExtractAct where
  | ret : List Char → ExtractAct
  | cont : Bool → Bool → Nat → Option (List Char) → ExtractAct

/-- One iteration of the scanner's `for` body (the same branch
structure as the Python loop). -/
def extractStep (oc cc ch : Char) (in_str esc : Bool) (depth : Nat)
    (acc : Option (List Char)) : ExtractAct :=
  if esc then .cont in_str false depth (pushAcc acc ch)
  else if ch == '\\' then .cont in_str true depth (pushAcc acc ch)
  else if ch == '"' then .cont (!in_str) esc depth (pushAcc acc ch)
  else if in_str then .cont in_str esc depth (pushAcc acc ch)
  else if ch == oc then
    match depth with
    | 0 => .cont in_str esc 1 (some [oc])
    | d + 1 => .cont in_str esc (d + 2) (pushAcc acc ch)
  else if ch == cc ∧ depth > 0 then
    match depth, acc with
    | 1, some l => .ret (l ++ [cc])
    | 1, none => .cont in_str esc 0 none
    | d + 2, _ => .cont in_str esc (d + 1) (pushAcc acc ch)
    | 0, _ => .cont in_str esc 0 (pushAcc acc ch)
  else .cont in_str esc depth (pushAcc acc ch)

def extractLoop (oc cc : Char) : List Char → Bool → Bool → Nat → Option (List Char) → Option (List Char)
  | [], _, _, _, _ => none
  | ch :: rest, in_str, esc, depth, acc =>
      match extractStep oc cc ch in_str esc depth acc with
      | .ret l => some l
      | .cont s e d a => extractLoop oc cc rest s e d a

/-- `_extract_top_level_object(text)`. -/
def extract_top_level_object (cs : List Char) : Option (List Char) :=
  extractLoop '{' '}' cs false false 0 none

/-- `_extract_top_level_array(text)`. -/
def extract_top_level_array (cs : List Char) : Option (List Char) :=
  extractLoop '[' ']' cs false false 0 none

/-! ## Response normalizer entry points

Models of `parse_llm_response` (single-line) and
`parse_batch_llm_response` (batch) from
`backend/app/ingestion/semantic_annotator.py`, and of
`BaseLLMProvider.extract_json` from `backend/app/llm/providers/base.py`. -/

/-- The explicit failure sentinel returned by `parse_llm_response`:
`{"__parse_failed__": True, "raw_output": response_text}`. -/
def failure_sentinel (raw : List Char) : PyJson :=
  .obj [("__parse_failed__", .bool true), ("raw_output", .str (String.mk raw))]

/-- The cleaning pipeline of `parse_llm_response`: strip, remove fence
markers (with and without the `json` tag), remove reasoning segments,
remove other paired tags. -/
def clean_single (response_text : List Char) : List Char :=
  removeTags (removeThink (subTicks (subTicksJson (pyStrip response_text))))

/-- `parse_llm_response(response_text)`: empty input, direct parse,
balanced top-level object extraction, failure sentinel.  Total — the
Python function catches every decode error. -/
def parse_llm_response (response_text : List Char) : PyJson :=
  if response_text.isEmpty then failure_sentinel response_text
  else
    let clean_text := clean_single response_text
    match json_loads clean_text with
    | some (.obj kvs) => .obj kvs
    | _ =>
        match extract_top_level_object clean_text with
        | some obj_json =>
            match json_loads obj_json with
            | some v => v
            | none => failure_sentinel response_text
        | none => failure_sentinel response_text

/-- The wrapper fields `parse_batch_llm_response` unwraps, in order. -/
def batch_wrapper_keys : List String :=
  ["results", "items", "data", "annotations", "outputs", "output", "choices"]

/-- First wrapper field of a dict whose value is a list. -/
def firstWrappedList (parsed : PyJson) : Option (List PyJson) :=
  batch_wrapper_keys.findSome? (fun k =>
    match parsed.get k with
    | some (.arr l) => some l
    | _ => none)

/-- The cleaning pipeline of `parse_batch_llm_response` (same as the
single-line one but with a final strip). -/
def clean_batch (response_text : List Char) : List Char :=
  pyStrip (removeTags (removeThink (subTicks (subTicksJson (pyStrip response_text)))))

/-- Steps 2–3 of `parse_batch_llm_response`: try the first balanced
top-level array; if none parses to a list, try the first balanced
top-level object (wrapped as a singleton list); else the empty list. -/
def parse_batch_extract (cleaned : List Char) : List PyJson :=
  let arrRes : Option (List PyJson) :=
    match extract_top_level_array cleaned with
    | some array_json =>
        match json_loads array_json with
        | some (.arr l) => some l
        | _ => none
    | none => none
  match arrRes with
  | some l => l
  | none =>
      match extract_top_level_object cleaned with
      | some obj_json =>
          match json_loads obj_json with
          | some (.obj kvs) => [.obj kvs]
          | _ => []
      | none => []

/-- `parse_batch_llm_response(response_text)`: empty input gives `[]`;
a direct parse returning a list is it; a direct parse returning a dict
is unwrapped through the wrapper fields or wrapped as a singleton; any
other outcome (scalar parse or decode error) falls through to the
balanced extraction.  Total — the Python function catches everything
and returns `[]` on total failure. -/
def parse_batch_llm_response (response_text : List Char) : List PyJson :=
  if response_text.isEmpty then []
  else
    let cleaned := clean_batch response_text
    match json_loads cleaned with
    | some (.arr l) => l
    | some (.obj kvs) =>
        match firstWrappedList (.obj kvs) with
        | some l => l
        | none => [.obj kvs]
    | _ => parse_batch_extract cleaned

/-- `text.find(ch)` (index of first occurrence). -/
def pyFind (ch : Char) (t : List Char) : Option Nat := t.findIdx? (· == ch)

/-- `text.rfind(ch)` (index of last occurrence). -/
def pyRfind (ch : Char) (t : List Char) : Option Nat :=
  (t.reverse.findIdx? (· == ch)).map (fun i => t.length - 1 - i)

/-- `text[a:b]`. -/
def pySlice (t : List Char) (a b : Nat) : List Char := (t.drop a).take (b - a)

/-- The array branch shared by `BaseLLMProvider.extract_json`:
`text[array_start : text.rfind(']')+1].strip()` when that span is
non-degenerate. -/
def extract_json_array_slice (t : List Char) (array_start : Nat) : Option (List Char) :=
  match pyRfind ']' t with
  | some array_end => if array_end > array_start then some (pyStrip (pySlice t array_start (array_end + 1))) else none
  | none => none

/-- `BaseLLMProvider.extract_json(text)` — note: this extractor slices
from the first `{` to the **last** `}` (no quote or depth tracking),
preferring an array slice only when a `[` occurs before the first `{`. -/
def extract_json (text : List Char) : List Char :=
  if text.isEmpty then ['{', '}']
  else
    let t := pyStrip (removeThink (subTicks (subTicksJson text)))
    let obj_start := pyFind '{' t
    let array_start := pyFind '[' t
    match obj_start with
    | some os =>
        (match pyRfind '}' t with
         | some oe =>
             if oe > os then
               match array_start with
               | some as' =>
                   if as' < os then
                     match extract_json_array_slice t as' with
                     | some s => s
                     | none => pyStrip (pySlice t os (oe + 1))
                   else pyStrip (pySlice t os (oe + 1))
               | none => pyStrip (pySlice t os (oe + 1))
             else
               -- fall through to the standalone array branch
               match array_start with
               | some as' =>
                   match extract_json_array_slice t as' with
                   | some s => s
                   | none => ['{', '}']
               | none => ['{', '}']
         | none =>
             match array_start with
             | some as' =>
                 match extract_json_array_slice t as' with
                 | some s => s
                 | none => ['{', '}']
             | none => ['{', '}'])
    | none =>
        match array_start with
        | some as' =>
            match extract_json_array_slice t as' with
            | some s => s
            | none => ['{', '}']
        | none => ['{', '}']

/-! ## Label canonicalization (English → Chinese maps) and `to_chinese` -/

def SENTENCE_TYPE_MAP : List (String × String) :=
  [("question", "问句"), ("answer", "答句"), ("command", "命令"), ("threat", "威胁"),
   ("counter_question", "反问"), ("mock", "嘲讽"), ("refuse", "拒绝"), ("fear", "害怕"),
   ("surrender", "求饶"), ("counter_attack", "反击"), ("anger", "愤怒"), ("exclaim", "感叹"),
   ("persuade", "劝说"), ("agree", "同意"), ("action", "行动"), ("interrupt", "打断"),
   ("reveal", "揭示"), ("obey", "服从"), ("comment", "评论"), ("shock", "震惊"),
   ("interjection", "感叹"), ("statement", "陈述")]

def EMOTION_MAP : List (String × String) :=
  [("angry", "愤怒"), ("rage", "狂怒"), ("fear", "害怕"), ("mock", "嘲讽"),
   ("proud", "得意"), ("arrogant", "嚣张"), ("helpless", "无奈"), ("calm", "冷静"),
   ("shock", "震惊"), ("funny", "搞笑"), ("absurd", "荒诞"), ("tsundere", "傲娇")]

def TONE_MAP : List (String × String) :=
  [("strong", "强硬"), ("weak", "软弱"), ("provocative", "挑衅"), ("humble", "卑微"),
   ("arrogant", "傲慢"), ("questioning", "质疑"), ("certain", "肯定"), ("hesitant", "犹豫"),
   ("pleading", "恳求"), ("threatening", "威胁")]

def CHARACTER_TYPE_MAP : List (String × String) :=
  [("emperor", "皇帝"), ("official", "大臣"), ("hero", "英雄"), ("villain", "反派"),
   ("comic", "搞笑角色"), ("victim", "受害者"), ("bystander", "旁观者"), ("wise", "智者")]

/-- `value.split("(")[0]`. -/
def splitParenFirst (cs : List Char) : List Char := cs.takeWhile (· != '(')

/-- `s.lower()` (ASCII; map keys are ASCII, Chinese characters have no case). -/
def pyLower (cs : List Char) : List Char := cs.map Char.toLower

def mapLookup (mapping : List (String × String)) (k : String) : Option String :=
  (mapping.find? (fun kv => kv.1 == k)).map Prod.snd

/-- `to_chinese(value, mapping)`: strip a parenthesised annotation,
translate an English key, pass anything else through unchanged (the
membership test on `mapping.values()` returns the same value either
way, faithfully mirrored). -/
def to_chinese (value : String) (mapping : List (String × String)) : String :=
  if value == "" then value
  else
    let clean_value := String.mk (pyStrip (splitParenFirst value.data))
    match mapLookup mapping (String.mk (pyLower clean_value.data)) with
    | some z => z
    | none =>
        if mapping.any (fun kv => kv.2 == clean_value) then clean_value
        else clean_value

/-! ## Default / unknown annotations and `normalize_annotation` -/

def emptyObj : PyJson := .obj []

/-- `get_default_annotation()` — the "legitimate neutral" annotation. -/
def get_default_annotation : PyJson :=
  .obj [("sentence_type", .str "exclaim"), ("emotion", .str "calm"),
        ("tone", .str "certain"), ("character_type", .str "bystander"),
        ("can_follow", .arr []), ("can_lead_to", .arr []), ("keywords", .arr []),
        ("primary_function", .str "其他"), ("style_effect", .str "其他"),
        ("editing_rhythm", .str "常规剪辑"), ("audio_suggest", .arr []),
        ("semantic_summary", .str "常规台词")]

/-- `get_unknown_annotation()` — the unknown sentinel recorded after
retry exhaustion, deliberately distinct from the default. -/
def get_unknown_annotation : PyJson :=
  .obj [("sentence_type", .str "未知"), ("emotion", .str "未知"),
        ("tone", .str "未知"), ("character_type", .str "未知"),
        ("can_follow", .arr []), ("can_lead_to", .arr []), ("keywords", .arr []),
        ("primary_function", .str "未知"), ("style_effect", .str "未知"),
        ("editing_rhythm", .str ""), ("audio_suggest", .arr []),
        ("semantic_summary", .str "未能解析到有效标注")]

/-- `normalize_annotation(parsed)`: non-dicts become the default; a
`mashup_analysis`-shaped dict is flattened; otherwise the dict is
kept, with `raw_output` set to a copy of itself without a nested
`raw_output` (avoiding self-reference). -/
def normalize_annotation (parsed : PyJson) : PyJson :=
  match parsed with
  | .obj _ =>
      if parsed.hasKey "mashup_analysis" then
        let mashup := PyJson.pyOr ((parsed.get "mashup_analysis").getD .null) emptyObj
        let quick := mashup.getD "quick_tags" emptyObj
        let semantic := mashup.getD "semantic_summary" emptyObj
        let creative := mashup.getD "creative_params" emptyObj
        .obj [("sentence_type", parsed.getD "sentence_type" (.str "")),
              ("emotion", parsed.getD "emotion" (.str "")),
              ("tone", parsed.getD "tone" (.str "")),
              ("character_type", parsed.getD "character_type" (.str "")),
              ("can_follow", PyJson.pyOr (parsed.getD "can_follow" (.arr [])) (.arr [])),
              ("can_lead_to", PyJson.pyOr (parsed.getD "can_lead_to" (.arr [])) (.arr [])),
              ("keywords", PyJson.pyOr (semantic.getD "keywords" (.arr []))
                 (PyJson.pyOr (parsed.getD "keywords" (.arr [])) (.arr []))),
              ("primary_function", PyJson.pyOr (quick.getD "primary" (.str ""))
                 (parsed.getD "primary_function" (.str ""))),
              ("style_effect", PyJson.pyOr (quick.getD "style" (.str ""))
                 (parsed.getD "style_effect" (.str ""))),
              ("editing_rhythm", PyJson.pyOr (quick.getD "rhythm" (.str ""))
                 (parsed.getD "editing_rhythm" (.str ""))),
              ("audio_suggest", PyJson.pyOr (creative.getD "audio_suggestions" (.arr []))
                 (PyJson.pyOr (parsed.getD "audio_suggest" (.arr [])) (.arr []))),
              ("semantic_summary", PyJson.pyOr (semantic.getD "brief" (.str ""))
                 (PyJson.pyOr (semantic.getD "use_case" (.str ""))
                    (parsed.getD "semantic_summary" (.str "")))),
              ("mashup_analysis", mashup),
              ("raw_output", parsed)]
      else
        let safe_raw_output := parsed.removeKey "raw_output"
        parsed.setKey "raw_output" safe_raw_output
  | _ => get_default_annotation

/-! ## The annotation dataclasses and their persisted form -/

/-- `SourceInfo` (`media_id`, `start`, `end`). -/
structure SourceInfo where
  media_id : String
  start : PyNum
  end_ : PyNum
deriving DecidableEq, Repr

def SourceInfo.dflt : SourceInfo := ⟨"", 0, 0⟩

def SourceInfo.to_dict (s : SourceInfo) : PyJson :=
  .obj [("media_id", .str s.media_id), ("start", .num s.start), ("end", .num s.end_)]

/-- `MashupTags` (field order as in the dataclass). -/
structure MashupTags where
  sentence_type : String
  emotion : String
  tone : String
  primary_function : String
  style_effect : String
  can_follow : List String
  can_lead_to : List String
  keywords : List String
  character_type : String
deriving DecidableEq, Repr

/-- The dataclass defaults (after `__post_init__` replaces the `None`
list fields with `[]`). -/
def MashupTags.dflt : MashupTags := ⟨"", "", "", "", "", [], [], [], ""⟩

def MashupTags.to_dict (t : MashupTags) : PyJson :=
  .obj [("sentence_type", .str t.sentence_type), ("emotion", .str t.emotion),
        ("tone", .str t.tone), ("primary_function", .str t.primary_function),
        ("style_effect", .str t.style_effect),
        ("can_follow", .arr (t.can_follow.map .str)),
        ("can_lead_to", .arr (t.can_lead_to.map .str)),
        ("keywords", .arr (t.keywords.map .str)),
        ("character_type", .str t.character_type)]

structure EditingParams where
  rhythm : String
  duration : PyNum
deriving DecidableEq, Repr

def EditingParams.dflt : EditingParams := ⟨"", 0⟩

def EditingParams.to_dict (e : EditingParams) : PyJson :=
  .obj [("rhythm", .str e.rhythm), ("duration", .num e.duration)]

/-- `LineAnnotation` — one annotation record (nested dataclasses are
always present after `__post_init__`). -/
structure LineAnnotation where
  id : String
  text : String
  source : SourceInfo
  mashup_tags : MashupTags
  vector_text : String
  editing_params : EditingParams
  semantic_summary : String
  annotated_at : PyNum
deriving DecidableEq, Repr

def LineAnnotation.to_dict (a : LineAnnotation) : PyJson :=
  .obj [("id", .str a.id), ("text", .str a.text),
        ("source", a.source.to_dict),
        ("mashup_tags", a.mashup_tags.to_dict),
        ("vector_text", .str a.vector_text),
        ("editing_params", a.editing_params.to_dict),
        ("semantic_summary", .str a.semantic_summary),
        ("annotated_at", .num a.annotated_at)]

/-- `LineAnnotation.from_dict(d)`: each field read with `d.get(key,
default)`; fields are extracted at their dataclass types (the code
stores exactly these types through `to_dict`). -/
def LineAnnotation.from_dict (d : PyJson) : LineAnnotation :=
  let source_d := d.getD "source" emptyObj
  let source : SourceInfo :=
    { media_id := source_d.getStr "media_id" ""
      start := source_d.getNum "start" 0
      end_ := source_d.getNum "end" 0 }
  let tags_d := d.getD "mashup_tags" emptyObj
  let mashup_tags : MashupTags :=
    { sentence_type := tags_d.getStr "sentence_type" ""
      emotion := tags_d.getStr "emotion" ""
      tone := tags_d.getStr "tone" ""
      primary_function := tags_d.getStr "primary_function" ""
      style_effect := tags_d.getStr "style_effect" ""
      can_follow := tags_d.getStrList "can_follow" []
      can_lead_to := tags_d.getStrList "can_lead_to" []
      keywords := tags_d.getStrList "keywords" []
      character_type := tags_d.getStr "character_type" "" }
  let ep_d := d.getD "editing_params" emptyObj
  let editing_params : EditingParams :=
    { rhythm := ep_d.getStr "rhythm" "", duration := ep_d.getNum "duration" 0 }
  { id := d.getStr "id" ""
    text := d.getStr "text" ""
    source := source
    mashup_tags := mashup_tags
    vector_text := d.getStr "vector_text" ""
    editing_params := editing_params
    semantic_summary := d.getStr "semantic_summary" ""
    annotated_at := d.getNum "annotated_at" 0 }

/-- `generate_vector_text()` — returns the annotation with its
`vector_text` field set (the Python method mutates in place). -/
def LineAnnotation.generate_vector_text (a : LineAnnotation) : LineAnnotation :=
  let tags := a.mashup_tags
  let parts := [tags.sentence_type, tags.emotion, tags.tone, a.text] ++
    tags.can_lead_to ++ tags.keywords
  { a with vector_text := " ".intercalate (parts.filter (fun p => p != "")) }

/-! ## `annotate_line` and `annotate_batch`

The LLM backend is an oracle `Nat → Except String String` indexed by a
global call counter (the `.error` case models a raised exception, the
`.ok` case the returned text).  Prompt construction
(`build_annotation_prompt` / `build_batch_annotation_prompt`) only
feeds the backend, and the oracle is universally quantified in every
claim, so prompts are not materialised.  `now` models `time.time()`. -/

def Oracle := Nat → Except String String

/-- The settings `annotate_line`/`annotate_batch` read from
`self.batch_settings` (after constructor overrides). -/
structure BatchSettings where
  retry_on_failure : Bool
  max_retries : Nat
deriving Repr

/-- `f"{media}_line_{idx}"`. -/
def line_id_of (media : String) (idx : Nat) : String :=
  media ++ "_line_" ++ toString idx

/-- Truthiness of `d.get(k)` (missing key is falsy `None`). -/
def getTruthy (d : PyJson) (k : String) : Bool :=
  (d.get k).elim false PyJson.truthy

/-- One `try` iteration of `annotate_line`'s retry loop: call the
backend, parse the response, and raise (`.error`) on the parse-failed
sentinel (`raise ValueError("LLM返回无法解析的JSON")`). -/
def chat_parse_once (oracle : Oracle) (counter : Nat) : Except String PyJson :=
  match oracle counter with
  | .error e => .error e
  | .ok response =>
      let parsed := parse_llm_response response.data
      if getTruthy parsed "__parse_failed__" then .error "LLM返回无法解析的JSON"
      else .ok parsed

/-- The retry loop of `annotate_line`.  `fuel` is the number of
retries still allowed (initially `max_retries`; the source's
`attempts` counter after a failure equals `max_retries - fuel + 1`, so
`attempts <= max_retries` is exactly `fuel ≥ 1`).  Returns the parsed
annotation — the unknown sentinel after exhaustion — and the next
backend-call counter. -/
def annotate_line_loop (oracle : Oracle) (retry_on_failure : Bool) :
    Nat → Nat → PyJson × Nat
  | fuel, counter =>
      match chat_parse_once oracle counter with
      | .ok parsed => (parsed, counter + 1)
      | .error _ =>
          match fuel, retry_on_failure with
          | f + 1, true => annotate_line_loop oracle retry_on_failure f (counter + 1)
          | _, _ => ( get_unknown_annotation, counter + 1)

/-- `SemanticAnnotator.annotate_line`. -/
def annotate_line (bs : BatchSettings) (oracle : Oracle) (counter : Nat)
    (text : String) (_context_lines : List String) (source_movie : String)
    (start end_ : PyNum) (line_id : String) (now : PyNum) :
    LineAnnotation × Nat :=
  let (parsed, counter') := annotate_line_loop oracle bs.retry_on_failure bs.max_retries counter
  let normalized₀ := normalize_annotation parsed
  let normalized := if getTruthy normalized₀ "__parse_failed__" then get_unknown_annotation
                    else normalized₀
  let duration := if PyNum.lt start end_ then PyNum.sub end_ start else 0
  let sentence_type := to_chinese (normalized.getStr "sentence_type" "") SENTENCE_TYPE_MAP
  let emotion := to_chinese (normalized.getStr "emotion" "") EMOTION_MAP
  let tone := to_chinese (normalized.getStr "tone" "") TONE_MAP
  let character_type := to_chinese (normalized.getStr "character_type" "") CHARACTER_TYPE_MAP
  let can_follow := (normalized.getStrList "can_follow" []).map (to_chinese · SENTENCE_TYPE_MAP)
  let can_lead_to := (normalized.getStrList "can_lead_to" []).map (to_chinese · SENTENCE_TYPE_MAP)
  let source_info : SourceInfo := ⟨source_movie, start, end_⟩
  let mashup_tags : MashupTags :=
    { sentence_type := sentence_type
      emotion := emotion
      tone := tone
      primary_function := normalized.getStr "primary_function" ""
      style_effect := normalized.getStr "style_effect" ""
      can_follow := can_follow
      can_lead_to := can_lead_to
      keywords := normalized.getStrList "keywords" []
      character_type := character_type }
  let editing_params : EditingParams :=
    ⟨normalized.getStr "editing_rhythm" "", PyNum.round2 duration⟩
  let ann : LineAnnotation :=
    { id := line_id
      text := text
      source := source_info
      mashup_tags := mashup_tags
      vector_text := ""
      editing_params := editing_params
      semantic_summary := normalized.getStr "semantic_summary" ""
      annotated_at := now }
  (ann.generate_vector_text, counter')

/-- One line of a batch unit (`{"idx", "text", "start", "end",
"context"}` as built by `annotate_subtitle_file`). -/
structure BatchItem where
  idx : Nat
  text : String
  start : PyNum
  end_ : PyNum
  context : List String
deriving Repr

/-- The retry loop of `annotate_batch`: an empty parse or a raised
backend call is retried up to `max_retries`; a non-empty parse — even
with a mismatched count — breaks immediately; exhaustion breaks with
the empty list. -/
def annotate_batch_loop (oracle : Oracle) (retry_on_failure : Bool) :
    Nat → Nat → List PyJson × Nat
  | fuel, counter =>
      match oracle counter with
      | .ok raw_response =>
          let parsed_results := parse_batch_llm_response raw_response.data
          if parsed_results.isEmpty then
            match fuel, retry_on_failure with
            | f + 1, true => annotate_batch_loop oracle retry_on_failure f (counter + 1)
            | _, _ => ([], counter + 1)
          else (parsed_results, counter + 1)
      | .error _ =>
          match fuel, retry_on_failure with
          | f + 1, true => annotate_batch_loop oracle retry_on_failure f (counter + 1)
          | _, _ => ([], counter + 1)

/-- The whole-unit fallback of `annotate_batch`, taken when the batch
result count is smaller than the unit size: every line of the unit is
re-processed through `annotate_line`, one output pair per line.  (The
source's inner `except` arm, which would append a default-constructed
record if `annotate_line` itself raised, is unreachable for the total
`annotate_line` of this model.) -/
def annotate_batch_fallback (bs : BatchSettings) (oracle : Oracle)
    (actual_media_id _subtitle_path : String) (now : PyNum) :
    List BatchItem → Nat → List (Nat × LineAnnotation) × Nat
  | [], counter => ([], counter)
  | item :: rest, counter =>
      let (ann, counter') := annotate_line bs oracle counter item.text item.context
          actual_media_id item.start item.end_ (line_id_of actual_media_id item.idx) now
      let (tail, counter'') :=
        annotate_batch_fallback bs oracle actual_media_id _subtitle_path now rest counter'
      ((item.idx, ann) :: tail, counter'')

/-- The `line_index`/`index` field of a parsed batch entry (a present
`None` value is discarded, as `is not None` does). -/
def line_idx_of (pr : PyJson) : Option PyJson :=
  match pr.get "line_index" with
  | some v => some v
  | none => pr.get "index"

/-- One step of the `index_map` construction loop of `annotate_batch`:
`pr.get` raises `AttributeError` when the parsed entry is not a dict,
and inserting an unhashable (list/dict) explicit index value raises
`TypeError`; a missing or `None` index adds nothing. -/
def index_map_step (pr : PyJson) : Except String (Option (PyJson × PyJson)) :=
  match pr with
  | .obj _ =>
      match line_idx_of pr with
      | none => .ok none
      | some .null => .ok none
      | some (.arr _) => .error "TypeError"
      | some (.obj _) => .error "TypeError"
      | some v => .ok (some (v, pr))
  | _ => .error "AttributeError"

/-- The `index_map` of `annotate_batch`, built from **all** parsed
entries before any mapping is attempted: the first non-dict entry
raises `AttributeError` out of `annotate_batch`, the first unhashable
explicit index raises `TypeError`; on success, the entries keyed by
their explicit index field, in insertion order. -/
def index_map_entries : List PyJson → Except String (List (PyJson × PyJson))
  | [] => .ok []
  | pr :: rest =>
      match index_map_step pr with
      | .error e => .error e
      | .ok none => index_map_entries rest
      | .ok (some ent) =>
          match index_map_entries rest with
          | .error e => .error e
          | .ok tail => .ok (ent :: tail)

/-- Python `int == key` equality used by `i + 1 in index_map`: an int
matches a numeric key by value and a bool key via `True == 1`. -/
def pyKeyEqNat (v : PyJson) (n : Nat) : Bool :=
  match v with
  | .num q => q.beqNat n
  | .bool b => (if b then 1 else 0) == n
  | _ => false

/-- Dict lookup in `index_map` by an int key (the last assignment to
an equal key wins, as repeated dict assignment does). -/
def index_map_lookup (entries : List (PyJson × PyJson)) (n : Nat) : Option PyJson :=
  (entries.reverse.find? (fun e => pyKeyEqNat e.1 n)).map Prod.snd

/-- Construction of one record from a mapped batch result (the
normalize / translate / assemble block of `annotate_batch`). -/
def build_from_parsed (actual_media_id : String) (item : BatchItem) (parsed : PyJson)
    (now : PyNum) : LineAnnotation :=
  let normalized := normalize_annotation parsed
  let duration := if PyNum.lt item.start item.end_ then PyNum.sub item.end_ item.start else 0
  let sentence_type := to_chinese (normalized.getStr "sentence_type" "") SENTENCE_TYPE_MAP
  let emotion := to_chinese (normalized.getStr "emotion" "") EMOTION_MAP
  let tone := to_chinese (normalized.getStr "tone" "") TONE_MAP
  let character_type := to_chinese (normalized.getStr "character_type" "") CHARACTER_TYPE_MAP
  let can_follow := (normalized.getStrList "can_follow" []).map (to_chinese · SENTENCE_TYPE_MAP)
  let can_lead_to := (normalized.getStrList "can_lead_to" []).map (to_chinese · SENTENCE_TYPE_MAP)
  let source_info : SourceInfo := ⟨actual_media_id, item.start, item.end_⟩
  let mashup_tags : MashupTags :=
    { sentence_type := sentence_type
      emotion := emotion
      tone := tone
      primary_function := normalized.getStr "primary_function" ""
      style_effect := normalized.getStr "style_effect" ""
      can_follow := can_follow
      can_lead_to := can_lead_to
      keywords := normalized.getStrList "keywords" []
      character_type := character_type }
  let editing_params : EditingParams :=
    ⟨normalized.getStr "editing_rhythm" "", PyNum.round2 duration⟩
  let ann : LineAnnotation :=
    { id := line_id_of actual_media_id item.idx
      text := item.text
      source := source_info
      mashup_tags := mashup_tags
      vector_text := ""
      editing_params := editing_params
      semantic_summary := normalized.getStr "semantic_summary" ""
      annotated_at := now }
  ann.generate_vector_text

/-- The mapped result for the line at position `i` of the unit:
position-based when the counts match exactly; otherwise explicit
index-field lookup at `i+1` then `i`, then position if in range. -/
def mapped_parsed (parsed_results : List PyJson) (use_seq : Bool)
    (entries : List (PyJson × PyJson)) (i : Nat) : Option PyJson :=
  if use_seq then parsed_results.get? i
  else
    match index_map_lookup entries (i + 1) with
    | some pr => some pr
    | none =>
        match index_map_lookup entries i with
        | some pr => some pr
        | none => parsed_results.get? i

/-- The mapping loop of `annotate_batch` (counts not smaller than the
unit): one output pair per line, built from the mapped result or — for
a line with no mapped result — escalated alone through
`annotate_line`. -/
def annotate_batch_map (bs : BatchSettings) (oracle : Oracle)
    (actual_media_id _subtitle_path : String) (now : PyNum)
    (parsed_results : List PyJson) (use_seq : Bool)
    (entries : List (PyJson × PyJson)) :
    List BatchItem → Nat → Nat → List (Nat × LineAnnotation) × Nat
  | [], _, counter => ([], counter)
  | item :: rest, i, counter =>
      match mapped_parsed parsed_results use_seq entries i with
      | none =>
          let (ann, counter') := annotate_line bs oracle counter item.text item.context
              actual_media_id item.start item.end_ (line_id_of actual_media_id item.idx) now
          let (tail, counter'') := annotate_batch_map bs oracle actual_media_id _subtitle_path
              now parsed_results use_seq entries rest (i + 1) counter'
          ((item.idx, ann) :: tail, counter'')
      | some parsed =>
          let ann := build_from_parsed actual_media_id item parsed now
          let (tail, counter') := annotate_batch_map bs oracle actual_media_id _subtitle_path
              now parsed_results use_seq entries rest (i + 1) counter
          ((item.idx, ann) :: tail, counter')

/-- `SemanticAnnotator.annotate_batch`: one backend call for the whole
unit (with retries), then whole-unit fallback when the parsed count is
smaller than the unit size; otherwise the `index_map` is built from
every parsed entry — raising `AttributeError`/`TypeError` out of
`annotate_batch` on a non-dict entry or an unhashable explicit index —
and only on success the per-position mapping runs. -/
def annotate_batch (bs : BatchSettings) (oracle : Oracle) (counter : Nat)
    (lines_batch : List BatchItem) (movie_name movie_id _subtitle_path : String)
    (now : PyNum) : Except String (List (Nat × LineAnnotation)) × Nat :=
  if lines_batch.isEmpty then (.ok [], counter)
  else
    let actual_media_id := if movie_id != "" then movie_id else movie_name
    let (parsed_results, counter₁) :=
      annotate_batch_loop oracle bs.retry_on_failure bs.max_retries counter
    if parsed_results.length < lines_batch.length then
      let fb := annotate_batch_fallback bs oracle actual_media_id _subtitle_path now
          lines_batch counter₁
      (.ok fb.1, fb.2)
    else
      let use_sequential_mapping := parsed_results.length == lines_batch.length
      match index_map_entries parsed_results with
      | .error e => (.error e, counter₁)
      | .ok entries =>
          let mp := annotate_batch_map bs oracle actual_media_id _subtitle_path now
              parsed_results use_sequential_mapping entries lines_batch 0 counter₁
          (.ok mp.1, mp.2)

/-! ## The engine: `annotate_subtitle_file`

External boundaries made explicit: the parsed line source, the loaded
checkpoint and prior output file, constant pause/cancel signals, and
an injection point for a unit future raising (`future.result()`).
Futures are processed in submission order: workers write disjoint
index sets, so every property claimed is insensitive to completion
order, and the backend oracle is universally quantified wherever the
claim requires arbitrary backend behaviour. -/

/-- One parsed subtitle line (the output of `parse_srt`; tolerant
subtitle-file parsing is the external line-source interface). -/
structure SrtLine where
  text : String
  start : PyNum
  end_ : PyNum
deriving Repr

/-- The checkpoint the engine writes and loads. -/
structure Checkpoint where
  movie_id : String
  movie_name : String
  subtitle_path : String
  llm_provider : String
  total_lines : Nat
  completed_indices : List Nat
  completed_count : Nat
  last_save_time : PyNum
  batch_size : Nat
  save_interval : Nat
deriving Repr

/-- One incremental save: the output-file contents (absent when no
record is completed — the write is guarded by `if completed_results:`)
and the checkpoint (absent exactly when the checkpoint comprehension
`[i for i in range(total) if results[i] is not None]` raises
`IndexError`, possible only on the completion path after the in-place
filtering shortens `results`). -/
structure SaveEvent where
  output : Option (List PyJson)
  checkpoint : Option Checkpoint

/-- The observable outcome of one `annotate_subtitle_file` run. -/
structure EngineRun where
  records : List LineAnnotation
  final_results : List (Option LineAnnotation)
  completed_indices : List Nat
  saves : List SaveEvent
  checkpoint_deleted : Bool
  submitted : List (List Nat)
  raised : Option String
  counter : Nat

/-- The part after the last occurrence of the id separator
(`ann_id.rsplit` with the line marker, keeping the suffix); `none`
when the separator does not occur. -/
def rsplit_line_suffix : List Char → Option (List Char)
  | [] => none
  | '_' :: 'l' :: 'i' :: 'n' :: 'e' :: '_' :: rest =>
      match rsplit_line_suffix rest with
      | some r => some r
      | none => some rest
  | _ :: rest => rsplit_line_suffix rest

/-- `parts[1].isdigit()` and `int(parts[1])`. -/
def parse_digits (cs : List Char) : Option Nat :=
  if cs.isEmpty then none
  else if cs.all Char.isDigit then some (digitsToNat cs) else none

/-- Pre-population of the results array from the prior output file on
resume: each record lands at the index parsed from its id. -/
def load_existing (total : Nat) (ldata : List PyJson) : List (Option LineAnnotation) :=
  ldata.foldl (fun results ann_dict =>
    match rsplit_line_suffix (PyJson.getStr ann_dict "id" "").data with
    | some suffix =>
        match parse_digits suffix with
        | some idx =>
            if idx < total then results.set idx (some ( LineAnnotation.from_dict ann_dict))
            else results
        | none => results
    | none => results) (List.replicate total none)

/-- The state of the prior output file on resume: absent, unreadable
(the load exception resets the resume state), or loaded records. -/
inductive OutputLoad where
  | absent : OutputLoad
  | corrupt : OutputLoad
  | loaded : List PyJson → OutputLoad

/-- First-occurrence deduplication (`set(...)` membership semantics
for the checkpoint's completed indices). -/
def dedupNat : List Nat → List Nat
  | [] => []
  | x :: xs => x :: (dedupNat xs).filter (fun y => y != x)

/-- Everything `_incremental_save` closes over besides the dynamic
`results` list (`now` stands for `time.time()` at the save). -/
structure SaveCtx where
  movie_id : String
  movie_name : String
  subtitle_path : String
  llm_provider : String
  total : Nat
  batch_size : Nat
  save_interval : Nat
  now : PyNum

/-- `_incremental_save()` applied to the current `results` list. -/
def incremental_save (ctx : SaveCtx) (results : List (Option LineAnnotation)) : SaveEvent :=
  let completed_results := results.filterMap id
  let output := if completed_results.isEmpty then none
                else some (completed_results.map LineAnnotation.to_dict)
  if results.length < ctx.total then
    -- IndexError in the checkpoint comprehension, after the output write
    { output := output, checkpoint := none }
  else
    let current_completed := (List.range ctx.total).filter (fun i => (results.getD i none).isSome)
    { output := output
      checkpoint := some
        { movie_id := ctx.movie_id, movie_name := ctx.movie_name
          subtitle_path := ctx.subtitle_path, llm_provider := ctx.llm_provider
          total_lines := ctx.total, completed_indices := current_completed
          completed_count := current_completed.length, last_save_time := ctx.now
          batch_size := ctx.batch_size, save_interval := ctx.save_interval } }

/-- The engine's mutable state during a run. -/
structure EngState where
  results : List (Option LineAnnotation)
  completed : Nat
  completed_indices : List Nat
  last_save_completed : Nat
  saves : List SaveEvent
  counter : Nat

/-- `completed_indices.add(idx)` (set insertion). -/
def setInsert (s : List Nat) (i : Nat) : List Nat := if i ∈ s then s else s ++ [i]

/-- Perform `_incremental_save()` (append the save, refresh
`last_save_completed`). -/
def do_save (ctx : SaveCtx) (st : EngState) : EngState :=
  { st with saves := st.saves ++ [incremental_save ctx st.results]
            last_save_completed := st.completed }

/-- `_check_pause()` under constant pause/cancel signals: when pause
is set, save, then report cancellation (break) if cancel is set, else
proceed as if the pause were cleared externally.  (A pause that is
never cleared nor cancelled makes the Python loop wait indefinitely;
such runs have no final state to model.) -/
def check_pause (ctx : SaveCtx) (pauseB cancelB : Bool) (st : EngState) : EngState × Bool :=
  if pauseB then (do_save ctx st, cancelB) else (st, false)

/-- The context window of line `j`. -/
def context_of (lines : List SrtLine) (window_size j : Nat) : List String :=
  (((List.range (min lines.length (j + window_size + 1))).filter
      (fun k => decide (j - window_size ≤ k) && decide (k ≠ j))).map
    (fun k => (lines.getD k ⟨"", 0, 0⟩).text))

/-- The batch block starting at line `i`: the not-yet-completed lines
among `[i, min(i+batch_size, total))`, with precomputed context. -/
def mk_batch (lines : List SrtLine) (completed₀ : List Nat) (window_size batch_size i : Nat) :
    List BatchItem :=
  (((List.range (min lines.length (i + batch_size))).filter
      (fun j => decide (i ≤ j) && !(completed₀.contains j))).map
    (fun j =>
      { idx := j
        text := (lines.getD j ⟨"", 0, 0⟩).text
        start := (lines.getD j ⟨"", 0, 0⟩).start
        end_ := (lines.getD j ⟨"", 0, 0⟩).end_
        context := context_of lines window_size j }))

/-- Batch construction (the outer loop checks the cancel signal each
block; empty blocks are skipped). -/
def build_batches (lines : List SrtLine) (completed₀ : List Nat)
    (window_size batch_size : Nat) (cancelB : Bool) : List (List BatchItem) :=
  if cancelB then []
  else (((List.range ((lines.length + batch_size - 1) / batch_size)).map
          (fun b => mk_batch lines completed₀ window_size batch_size (b * batch_size))).filter
        (fun batch => !batch.isEmpty))

/-- The batch submission loop (cancel, then pause check, per unit). -/
def submit_units (ctx : SaveCtx) (pauseB cancelB : Bool) :
    List (List BatchItem) → EngState → List (List BatchItem) × EngState
  | [], st => ([], st)
  | b :: rest, st =>
      if cancelB then ([], st)
      else
        let cp := check_pause ctx pauseB cancelB st
        if cp.2 then ([], cp.1)
        else
          let sub := submit_units ctx pauseB cancelB rest cp.1
          (b :: sub.1, sub.2)

/-- Record the result pairs of one completed unit (`results[idx] =
annotation; completed += 1; completed_indices.add(idx)`). -/
def apply_pairs : EngState → List (Nat × LineAnnotation) → EngState
  | st, [] => st
  | st, (idx, ann) :: rest =>
      apply_pairs
        { st with results := st.results.set idx (some ann)
                  completed := st.completed + 1
                  completed_indices := setInsert st.completed_indices idx } rest

/-- The incremental-save cadence check after a unit completes. -/
def maybe_save (ctx : SaveCtx) (st : EngState) : EngState :=
  if ctx.save_interval > 0 ∧ st.completed - st.last_save_completed ≥ ctx.save_interval
  then do_save ctx st else st

/-- The default-constructed record written by the engine-level
`except` arms: dataclass defaults everywhere except id, text, source
and timestamp — all mashup tag strings empty. -/
def blank_record (actual_media_id : String) (idx : Nat) (text : String)
    (start end_ now : PyNum) : LineAnnotation :=
  { id := line_id_of actual_media_id idx
    text := text
    source := ⟨actual_media_id, start, end_⟩
    mashup_tags := MashupTags.dflt
    vector_text := ""
    editing_params := EditingParams.dflt
    semantic_summary := ""
    annotated_at := now }

/-- The `except` arm of the batch-result loop: every line of the
failed unit recorded as completed with a blank record. -/
def record_batch_failure (actual_media_id : String) (now : PyNum) :
    EngState → List BatchItem → EngState
  | st, [] => st
  | st, item :: rest =>
      record_batch_failure actual_media_id now
        { st with
            results := st.results.set item.idx
              (some (blank_record actual_media_id item.idx item.text item.start item.end_ now))
            completed := st.completed + 1
            completed_indices := setInsert st.completed_indices item.idx } rest

/-- The batch-mode result loop (`as_completed`, processed in
submission order): per unit — cancel check, pause check, then either
the injected future exception (`except` arm), or the unit's
`annotate_batch` outcome: an exception it raises is caught by the same
`except` arm (blank records, no save check), a returned result is
applied and followed by the save-cadence check. -/
def process_units_batch (ctx : SaveCtx) (bs : BatchSettings) (oracle : Oracle)
    (inject : Nat → Option String) (pauseB cancelB : Bool)
    (actual_media_id movie_name : String) :
    List (List BatchItem) → Nat → EngState → EngState
  | [], _, st => st
  | batch :: rest, u, st =>
      if cancelB then st
      else
        let cp := check_pause ctx pauseB cancelB st
        if cp.2 then cp.1
        else
          match inject u with
          | some _ =>
              process_units_batch ctx bs oracle inject pauseB cancelB actual_media_id movie_name
                rest (u + 1) (record_batch_failure actual_media_id ctx.now cp.1 batch)
          | none =>
              let ab := annotate_batch bs oracle cp.1.counter batch
                  movie_name actual_media_id ctx.subtitle_path ctx.now
              match ab.1 with
              | .error _ =>
                  process_units_batch ctx bs oracle inject pauseB cancelB actual_media_id
                    movie_name rest (u + 1)
                    (record_batch_failure actual_media_id ctx.now
                      { cp.1 with counter := ab.2 } batch)
              | .ok pairs =>
                  let st₂ := apply_pairs { cp.1 with counter := ab.2 } pairs
                  process_units_batch ctx bs oracle inject pauseB cancelB actual_media_id
                    movie_name rest (u + 1) (maybe_save ctx st₂)

/-- The single-line submission loop: skip completed lines, then
cancel, then pause check. -/
def submit_lines (ctx : SaveCtx) (pauseB cancelB : Bool) (completed₀ : List Nat) :
    List Nat → EngState → List Nat × EngState
  | [], st => ([], st)
  | i :: rest, st =>
      if completed₀.contains i then submit_lines ctx pauseB cancelB completed₀ rest st
      else if cancelB then ([], st)
      else
        let cp := check_pause ctx pauseB cancelB st
        if cp.2 then ([], cp.1)
        else
          let sub := submit_lines ctx pauseB cancelB completed₀ rest cp.1
          (i :: sub.1, sub.2)

/-- The single-line result loop (`as_completed`, submission order):
per line — cancel and pause checks, then the injected exception arm
(blank record, no save check) or `annotate_line` followed by the
save-cadence check. -/
def process_lines (ctx : SaveCtx) (bs : BatchSettings) (oracle : Oracle)
    (inject : Nat → Option String) (pauseB cancelB : Bool)
    (actual_media_id : String) (lines : List SrtLine) (window_size : Nat) :
    List Nat → Nat → EngState → EngState
  | [], _, st => st
  | i :: rest, u, st =>
      if cancelB then st
      else
        let cp := check_pause ctx pauseB cancelB st
        if cp.2 then cp.1
        else
          let line := lines.getD i ⟨"", 0, 0⟩
          match inject u with
          | some _ =>
              process_lines ctx bs oracle inject pauseB cancelB actual_media_id lines window_size
                rest (u + 1)
                { cp.1 with
                    results := cp.1.results.set i
                      (some (blank_record actual_media_id i line.text line.start line.end_ ctx.now))
                    completed := cp.1.completed + 1
                    completed_indices := setInsert cp.1.completed_indices i }
          | none =>
              let al := annotate_line bs oracle cp.1.counter line.text
                  (context_of lines window_size i) actual_media_id line.start line.end_
                  (line_id_of actual_media_id i) ctx.now
              let st₂ :=
                { cp.1 with
                    results := cp.1.results.set i (some al.1)
                    completed := cp.1.completed + 1
                    completed_indices := setInsert cp.1.completed_indices i
                    counter := al.2 }
              process_lines ctx bs oracle inject pauseB cancelB actual_media_id lines window_size
                rest (u + 1) (maybe_save ctx st₂)

/-- `batch_size` clamping (`if batch_size > total`, then `if < 1`). -/
def resolve_batch_size (b total : Nat) : Nat :=
  if b > total then total else if b < 1 then 1 else b

/-- The resume block: the initial completed-index set and results
array (`INIT` loading a checkpoint and pre-populating from the prior
output file; a load exception resets both). -/
def engine_resume_init (total : Nat) (resume_from_checkpoint : Bool)
    (checkpoint : Option Checkpoint) (output_load : OutputLoad) :
    List Nat × List (Option LineAnnotation) :=
  if resume_from_checkpoint then
    match checkpoint with
    | some cp =>
        if cp.completed_indices.isEmpty then ([], List.replicate total none)
        else
          match output_load with
          | .loaded ldata => (dedupNat cp.completed_indices, load_existing total ldata)
          | .absent => (dedupNat cp.completed_indices, List.replicate total none)
          | .corrupt => ([], List.replicate total none)
    | none => ([], List.replicate total none)
  else ([], List.replicate total none)

/-- The early return when no line remains to process: the loaded
records are returned with **no** save and **no** checkpoint
deletion. -/
def engine_already_complete (completed₀ : List Nat)
    (results₀ : List (Option LineAnnotation)) : EngineRun :=
  { records := results₀.filterMap id, final_results := results₀
    completed_indices := completed₀, saves := [], checkpoint_deleted := false
    submitted := [], raised := none, counter := 0 }

/-- The batch-mode phase: build batches, submit, process. -/
def engine_phase_batch (ctx : SaveCtx) (bs : BatchSettings) (oracle : Oracle)
    (inject : Nat → Option String) (pauseB cancelB : Bool)
    (actual_media_id movie_name : String) (lines : List SrtLine)
    (window_size batch_size : Nat) (completed₀ : List Nat) (st₀ : EngState) :
    List (List Nat) × EngState :=
  let batches := build_batches lines completed₀ window_size batch_size cancelB
  let sub := submit_units ctx pauseB cancelB batches st₀
  let st₂ := process_units_batch ctx bs oracle inject pauseB cancelB
      actual_media_id movie_name sub.1 0 sub.2
  (sub.1.map (fun b => b.map BatchItem.idx), st₂)

/-- The single-line phase: submit the not-yet-completed lines,
process. -/
def engine_phase_single (ctx : SaveCtx) (bs : BatchSettings) (oracle : Oracle)
    (inject : Nat → Option String) (pauseB cancelB : Bool)
    (actual_media_id : String) (lines : List SrtLine)
    (window_size : Nat) (completed₀ : List Nat) (st₀ : EngState) :
    List (List Nat) × EngState :=
  let sub := submit_lines ctx pauseB cancelB completed₀ (List.range lines.length) st₀
  let st₂ := process_lines ctx bs oracle inject pauseB cancelB
      actual_media_id lines window_size sub.1 0 sub.2
  (sub.1.map (fun i => [i]), st₂)

/-- The finale: pause save, cancel save, or completion (final save on
the in-place-filtered list, then checkpoint deletion — unless the
filtered list is short and the save raises `IndexError` after the
output write). -/
def engine_finale (ctx : SaveCtx) (pauseB cancelB : Bool)
    (submitted : List (List Nat)) (st : EngState) : EngineRun :=
  if pauseB then
    let st' := do_save ctx st
    { records := st'.results.filterMap id, final_results := st'.results
      completed_indices := st'.completed_indices, saves := st'.saves
      checkpoint_deleted := false, submitted := submitted, raised := none
      counter := st'.counter }
  else if cancelB then
    let st' := do_save ctx st
    { records := st'.results.filterMap id, final_results := st'.results
      completed_indices := st'.completed_indices, saves := st'.saves
      checkpoint_deleted := false, submitted := submitted, raised := none
      counter := st'.counter }
  else
    let filtered := st.results.filterMap id
    let finalSave := incremental_save ctx (filtered.map some)
    match finalSave.checkpoint with
    | none =>
        -- IndexError raised inside the final save, after the output write
        { records := [], final_results := st.results
          completed_indices := st.completed_indices
          saves := st.saves ++ [finalSave], checkpoint_deleted := false
          submitted := submitted, raised := some "IndexError", counter := st.counter }
    | some _ =>
        { records := filtered, final_results := st.results
          completed_indices := st.completed_indices
          saves := st.saves ++ [finalSave], checkpoint_deleted := true
          submitted := submitted, raised := none, counter := st.counter }

/-- `SemanticAnnotator.annotate_subtitle_file`. -/
def annotate_subtitle_file (bs : BatchSettings) (oracle : Oracle)
    (inject : Nat → Option String)
    (lines : List SrtLine) (movie_name movie_id subtitle_path llm_provider : String)
    (window_size batch_size₀ save_interval : Nat)
    (cancelB pauseB : Bool) (resume_from_checkpoint : Bool)
    (checkpoint : Option Checkpoint) (output_load : OutputLoad)
    (now : PyNum) : EngineRun :=
  let actual_media_id := if movie_id != "" then movie_id else movie_name
  if lines.isEmpty then
    { records := [], final_results := [], completed_indices := [], saves := []
      checkpoint_deleted := false, submitted := [], raised := none, counter := 0 }
  else
    let total := lines.length
    let batch_size := resolve_batch_size batch_size₀ total
    let resumed := engine_resume_init total resume_from_checkpoint checkpoint output_load
    let completed₀ := resumed.1
    let results₀ := resumed.2
    let use_batch_mode := batch_size > 1
    let remaining : Int := (total : Int) - completed₀.length
    if remaining ≤ 0 then engine_already_complete completed₀ results₀
    else
      let ctx : SaveCtx :=
        ⟨movie_id, movie_name, subtitle_path, llm_provider, total, batch_size, save_interval, now⟩
      let st₀ : EngState :=
        ⟨results₀, completed₀.length, completed₀, completed₀.length, [], 0⟩
      let afterProcessing : List (List Nat) × EngState :=
        if use_batch_mode then
          engine_phase_batch ctx bs oracle inject pauseB cancelB actual_media_id movie_name
            lines window_size batch_size completed₀ st₀
        else
          engine_phase_single ctx bs oracle inject pauseB cancelB actual_media_id
            lines window_size completed₀ st₀
      engine_finale ctx pauseB cancelB afterProcessing.1 afterProcessing.2

/-! ## Named concrete inputs used by the claim witnesses and
counterexamples, and the parse-shape predicate -/

def C4_oracle : Oracle := fun _ => .error "TimeoutError"

/-- How a list relates to the parsed value it was unwrapped from in
`parse_batch_llm_response`: the value itself as an array, a dict
wrapped as a singleton, or a dict's wrapper field. -/
def FromParsedList (v : PyJson) (l : List PyJson) : Prop :=
  v = .arr l ∨
    ∃ kvs, v = PyJson.obj kvs ∧
      (l = [v] ∨ ∃ k, k ∈ batch_wrapper_keys ∧ v.get k = some (.arr l))

def C9_cex_input : List Char := "\x7b\"a\": 1\x7d [2]".data

def C9_wit_input : List Char := "x \x7b\"a\": 1\x7d [2]".data

def C1_oracle : Oracle := fun _ => .ok "junk"

theorem filterMap_str_map (l : List String) :
    (l.map PyJson.str).filterMap
      (fun x => match x with | .str s => some s | _ => none) = l := by
  induction l with
  | nil => rfl
  | cons x xs ih => simp [ih]

theorem filterMap_str_comp (l : List String) :
    List.filterMap
      ((fun x => match x with | PyJson.str s => some s | _ => none) ∘ PyJson.str) l = l := by
  induction l with
  | nil => rfl
  | cons x xs ih => simpa using ih

/-- C8: serializing a record to its persisted dict form and parsing it
back is the identity on every field. -/
theorem C8_round_trip (r : LineAnnotation) :
    LineAnnotation.from_dict ( LineAnnotation.to_dict r) = r := by
  obtain ⟨id, text, ⟨mi, st, en⟩, ⟨a, b, c, d, e, f, g, h, i⟩, vt, ⟨rh, du⟩, ss, at_⟩ := r
  simp [ LineAnnotation.to_dict, LineAnnotation.from_dict, SourceInfo.to_dict,
    MashupTags.to_dict, EditingParams.to_dict, PyJson.getD, PyJson.get,
    PyJson.getStr, PyJson.getNum, PyJson.getStrList, List.find?, filterMap_str_map,
    filterMap_str_comp]

/-! ## C4: retry exhaustion yields the unknown sentinel -/

theorem annotate_line_loop_all_fail (oracle : Oracle) :
    ∀ (fuel counter : Nat),
    (∀ k, k ≤ fuel → ∃ e, chat_parse_once oracle (counter + k) = .error e) →
    annotate_line_loop oracle true fuel counter = ( get_unknown_annotation, counter + fuel + 1) := by
  intro fuel
  induction fuel with
  | zero =>
      intro counter h
      obtain ⟨e, he⟩ := h 0 (Nat.le_refl 0)
      rw [Nat.add_zero] at he
      simp [annotate_line_loop, he]
  | succ f ih =>
      intro counter h
      obtain ⟨e, he⟩ := h 0 (Nat.zero_le _)
      rw [Nat.add_zero] at he
      rw [annotate_line_loop, he]
      rw [ih (counter + 1) (fun k hk => by
        obtain ⟨e', he'⟩ := h (k + 1) (Nat.succ_le_succ hk)
        exact ⟨e', by rw [show counter + 1 + k = counter + (k + 1) by omega]; exact he'⟩)]
      simp [Nat.add_assoc, Nat.add_comm 1 f]

/-- C4: a line whose backend call fails (raises) or yields an
unparseable response on every attempt makes exactly `max_retries + 1`
backend calls (at most `max_retries` retries after the first attempt),
never raises (`annotate_line` is total), and returns the
unknown-sentinel annotation, whose tag values are distinct from the
normal default annotation's (and, being a returned record, distinct
from an absent one). -/
theorem C4_retry_exhaustion_unknown (bs : BatchSettings) (oracle : Oracle) (counter : Nat)
    (text : String) (ctx : List String) (movie : String) (start end_ : PyNum)
    (lid : String) (now : PyNum)
    (hros : bs.retry_on_failure = true)
    (hfail : ∀ k, k ≤ bs.max_retries → ∃ e, chat_parse_once oracle (counter + k) = .error e) :
    (annotate_line bs oracle counter text ctx movie start end_ lid now).2
        = counter + bs.max_retries + 1 ∧
    ((annotate_line bs oracle counter text ctx movie start end_ lid now).1.mashup_tags.sentence_type
        = "未知" ∧
     (annotate_line bs oracle counter text ctx movie start end_ lid now).1.mashup_tags.emotion
        = "未知" ∧
     (annotate_line bs oracle counter text ctx movie start end_ lid now).1.mashup_tags.tone
        = "未知" ∧
     (annotate_line bs oracle counter text ctx movie start end_ lid now).1.mashup_tags.character_type
        = "未知" ∧
     (annotate_line bs oracle counter text ctx movie start end_ lid now).1.semantic_summary
        = "未能解析到有效标注") ∧
    ( get_unknown_annotation.getStr "sentence_type" "" ≠ get_default_annotation.getStr "sentence_type" "" ∧
      get_unknown_annotation ≠ get_default_annotation) := by
  have hl := annotate_line_loop_all_fail oracle bs.max_retries counter hfail
  rw [← hros] at hl
  refine ⟨?_, ⟨?_, ?_, ?_, ?_, ?_⟩, ⟨by decide, by simp [ get_unknown_annotation, get_default_annotation]⟩⟩ <;>
    (simp [annotate_line, hl, LineAnnotation.generate_vector_text]; try rfl)

/-- C4 witness: a backend raising `TimeoutError` on every attempt with
`max_retries = 2` — exactly three calls, unknown-sentinel tags. -/
theorem C4_witness :
    (annotate_line ⟨true, 2⟩ C4_oracle 0 "你好" [] "m" 0 1 "m_line_0" 5).2 = 0 + 2 + 1 ∧
    ((annotate_line ⟨true, 2⟩ C4_oracle 0 "你好" [] "m" 0 1 "m_line_0" 5).1.mashup_tags.sentence_type
        = "未知" ∧
     (annotate_line ⟨true, 2⟩ C4_oracle 0 "你好" [] "m" 0 1 "m_line_0" 5).1.mashup_tags.emotion
        = "未知" ∧
     (annotate_line ⟨true, 2⟩ C4_oracle 0 "你好" [] "m" 0 1 "m_line_0" 5).1.mashup_tags.tone
        = "未知" ∧
     (annotate_line ⟨true, 2⟩ C4_oracle 0 "你好" [] "m" 0 1 "m_line_0" 5).1.mashup_tags.character_type
        = "未知" ∧
     (annotate_line ⟨true, 2⟩ C4_oracle 0 "你好" [] "m" 0 1 "m_line_0" 5).1.semantic_summary
        = "未能解析到有效标注") ∧
    ( get_unknown_annotation.getStr "sentence_type" "" ≠ get_default_annotation.getStr "sentence_type" "" ∧
      get_unknown_annotation ≠ get_default_annotation) :=
  C4_retry_exhaustion_unknown ⟨true, 2⟩ C4_oracle 0 "你好" [] "m" 0 1 "m_line_0" 5 rfl
    (fun _ _ => ⟨"TimeoutError", rfl⟩)

/-! ## C1: one record per requested line -/

theorem pushAcc_head (oc : Char) (acc : Option (List Char)) (ch : Char)
    (hacc : ∀ l₀, acc = some l₀ → ∃ t, l₀ = oc :: t) :
    ∀ l₀, pushAcc acc ch = some l₀ → ∃ t, l₀ = oc :: t := by
  intro l₀ h
  cases acc with
  | none => simp [pushAcc] at h
  | some l =>
      simp [pushAcc] at h
      obtain ⟨t, ht⟩ := hacc l rfl
      exact ⟨t ++ [ch], by rw [← h, ht]; rfl⟩

/-- The scanner step preserves the invariant "an active slice starts
with the opening bracket", and a returned slice starts with it. -/
theorem extractStep_head (oc cc ch : Char) (in_str esc : Bool) (depth : Nat)
    (acc : Option (List Char))
    (hacc : ∀ l₀, acc = some l₀ → ∃ t, l₀ = oc :: t) :
    ∀ act, extractStep oc cc ch in_str esc depth acc = act →
      (match act with
       | .ret l => ∃ t, l = oc :: t
       | .cont _ _ _ a => ∀ l₀, a = some l₀ → ∃ t, l₀ = oc :: t) := by
  intro act hact
  unfold extractStep at hact
  repeat' split at hact
  all_goals cases hact
  all_goals try exact pushAcc_head oc acc ch hacc
  · exact fun l₀ h => ⟨[], by cases h; rfl⟩
  · next heq =>
      obtain ⟨t, ht⟩ := hacc _ rfl
      exact ⟨t ++ [cc], by rw [ht]; rfl⟩
  · exact fun _ h => by cases h

theorem extractLoop_head (oc cc : Char) :
    ∀ (cs : List Char) (in_str esc : Bool) (depth : Nat) (acc : Option (List Char))
      (l : List Char),
      (∀ l₀, acc = some l₀ → ∃ t, l₀ = oc :: t) →
      extractLoop oc cc cs in_str esc depth acc = some l → ∃ t, l = oc :: t := by
  intro cs
  induction cs with
  | nil =>
      intro in_str esc depth acc l _ h
      exact Option.noConfusion h
  | cons ch rest ih =>
      intro in_str esc depth acc l hacc h
      rw [extractLoop] at h
      cases hstep : extractStep oc cc ch in_str esc depth acc with
      | ret l' =>
          rw [hstep] at h
          cases h
          exact extractStep_head oc cc ch in_str esc depth acc hacc _ hstep
      | cont s e d a =>
          rw [hstep] at h
          exact ih s e d a l (extractStep_head oc cc ch in_str esc depth acc hacc _ hstep) h

/-- A successful parse of a string starting with `{` is an object. -/
theorem json_loads_brace (t : List Char) (v : PyJson)
    (h : json_loads ('{' :: t) = some v) : ∃ kvs, v = PyJson.obj kvs := by
  rw [json_loads] at h
  rw [show (2 * (('{' :: t).length) + 8) = (2 * t.length + 9) + 1 by
    simp [List.length_cons]; omega] at h
  rw [show parseValue ((2 * t.length + 9) + 1) ('{' :: t)
        = (parseObjBody (2 * t.length + 9) t).map (fun p => (PyJson.obj p.1, p.2)) from rfl] at h
  cases hob : parseObjBody (2 * t.length + 9) t with
  | none =>
      rw [hob] at h
      exact Option.noConfusion h
  | some p =>
      rw [hob] at h
      have h' : (if (skipWs p.2).isEmpty then some (PyJson.obj p.1) else none) = some v := h
      by_cases hrest : (skipWs p.2).isEmpty
      · rw [if_pos hrest] at h'
        exact ⟨p.1, by cases h'; rfl⟩
      · rw [if_neg hrest] at h'; cases h'

/-- A successful parse of a string starting with `[` is an array. -/
theorem json_loads_bracket (t : List Char) (v : PyJson)
    (h : json_loads ('[' :: t) = some v) : ∃ l, v = PyJson.arr l := by
  rw [json_loads] at h
  rw [show (2 * (('[' :: t).length) + 8) = (2 * t.length + 9) + 1 by
    simp [List.length_cons]; omega] at h
  rw [show parseValue ((2 * t.length + 9) + 1) ('[' :: t)
        = (parseArrBody (2 * t.length + 9) t).map (fun p => (PyJson.arr p.1, p.2)) from rfl] at h
  cases hob : parseArrBody (2 * t.length + 9) t with
  | none =>
      rw [hob] at h
      exact Option.noConfusion h
  | some p =>
      rw [hob] at h
      have h' : (if (skipWs p.2).isEmpty then some (PyJson.arr p.1) else none) = some v := h
      by_cases hrest : (skipWs p.2).isEmpty
      · rw [if_pos hrest] at h'
        exact ⟨p.1, by cases h'; rfl⟩
      · rw [if_neg hrest] at h'; cases h'

/-- The extraction fallback of `parse_llm_response` yields the
sentinel or a successfully parsed object. -/
theorem extract_branch_shape (ct s : List Char) :
    (match extract_top_level_object ct with
     | some obj_json =>
         match json_loads obj_json with
         | some v => v
         | none => failure_sentinel s
     | none => failure_sentinel s) = failure_sentinel s ∨
    ∃ kvs cs, json_loads cs = some (PyJson.obj kvs) ∧
      (match extract_top_level_object ct with
       | some obj_json =>
           match json_loads obj_json with
           | some v => v
           | none => failure_sentinel s
       | none => failure_sentinel s) = PyJson.obj kvs := by
  cases hx : extract_top_level_object ct with
  | none => left; rfl
  | some oj =>
      obtain ⟨t, ht⟩ := extractLoop_head '{' '}' ct false false 0 none oj
        (fun _ h => Option.noConfusion h) hx
      cases hj : json_loads oj with
      | none => left; simp [hj]
      | some v =>
          obtain ⟨kvs, hkvs⟩ := json_loads_brace t v (ht ▸ hj)
          right
          exact ⟨kvs, oj, by rw [hj, hkvs], by simp [hj, hkvs]⟩

/-- `parse_llm_response` returns the sentinel or a parsed dict. -/
theorem parse_llm_response_shape (s : List Char) :
    parse_llm_response s = failure_sentinel s ∨
      ∃ kvs cs, json_loads cs = some (PyJson.obj kvs) ∧
        parse_llm_response s = PyJson.obj kvs := by
  by_cases hie : s.isEmpty
  · left
    rw [parse_llm_response, if_pos hie]
  · rw [parse_llm_response, if_neg hie]
    cases hj : json_loads (clean_single s) with
    | none => simpa [hj] using extract_branch_shape (clean_single s) s
    | some v =>
        cases v with
        | obj kvs => right; exact ⟨kvs, clean_single s, hj, by simp [hj]⟩
        | null => simpa [hj] using extract_branch_shape (clean_single s) s
        | bool b => simpa [hj] using extract_branch_shape (clean_single s) s
        | num q => simpa [hj] using extract_branch_shape (clean_single s) s
        | str t => simpa [hj] using extract_branch_shape (clean_single s) s
        | arr l => simpa [hj] using extract_branch_shape (clean_single s) s

/-- The extraction steps of `parse_batch_llm_response` yield the empty
list or a successfully parsed value's contents. -/
theorem parse_batch_extract_shape (ct : List Char) :
    parse_batch_extract ct = [] ∨
      ∃ cs v, json_loads cs = some v ∧ FromParsedList v (parse_batch_extract ct) := by
  rw [parse_batch_extract]
  have hobjCase :
      ∀ res : List PyJson,
        res = (match extract_top_level_object ct with
               | some obj_json =>
                   match json_loads obj_json with
                   | some (PyJson.obj kvs) => [PyJson.obj kvs]
                   | _ => []
               | none => []) →
        res = [] ∨ ∃ cs v, json_loads cs = some v ∧ FromParsedList v res := by
    intro res hres
    cases hx : extract_top_level_object ct with
    | none => rw [hx] at hres; left; exact hres
    | some oj =>
        rw [hx] at hres
        have hres' : res = (match json_loads oj with
                            | some (PyJson.obj kvs) => [PyJson.obj kvs]
                            | _ => []) := hres
        clear hres
        cases hj : json_loads oj with
        | none => rw [hj] at hres'; left; exact hres'
        | some v =>
            rw [hj] at hres'
            cases v with
            | obj kvs =>
                right
                exact ⟨oj, PyJson.obj kvs, hj, Or.inr ⟨kvs, rfl, Or.inl hres'⟩⟩
            | null => left; exact hres'
            | bool b => left; exact hres'
            | num q => left; exact hres'
            | str t => left; exact hres'
            | arr l => left; exact hres'
  cases ha : extract_top_level_array ct with
  | none =>
      simp only [ha]
      exact hobjCase _ rfl
  | some aj =>
      cases hja : json_loads aj with
      | none =>
          simp only [ha, hja]
          exact hobjCase _ rfl
      | some v =>
          cases v with
          | arr l =>
              simp only [ha, hja]
              right
              exact ⟨aj, PyJson.arr l, hja, Or.inl rfl⟩
          | null => simp only [ha, hja]; exact hobjCase _ rfl
          | bool b => simp only [ha, hja]; exact hobjCase _ rfl
          | num q => simp only [ha, hja]; exact hobjCase _ rfl
          | str t => simp only [ha, hja]; exact hobjCase _ rfl
          | obj kvs => simp only [ha, hja]; exact hobjCase _ rfl

theorem findSome?_exists {α β : Type} (f : α → Option β) :
    ∀ (l : List α) (b : β), l.findSome? f = some b → ∃ a, a ∈ l ∧ f a = some b := by
  intro l
  induction l with
  | nil => intro b h; simp [List.findSome?] at h
  | cons x xs ih =>
      intro b h
      rw [List.findSome?] at h
      cases hx : f x with
      | some b' =>
          rw [hx] at h
          cases h
          exact ⟨x, List.mem_cons_self x xs, hx⟩
      | none =>
          rw [hx] at h
          obtain ⟨a, ha, hfa⟩ := ih b h
          exact ⟨a, List.mem_cons_of_mem x ha, hfa⟩

/-- `parse_batch_llm_response` always returns a list whose contents
come from a successful parse (or the empty list). -/
theorem parse_batch_response_shape (s : List Char) :
    parse_batch_llm_response s = [] ∨
      ∃ cs v, json_loads cs = some v ∧ FromParsedList v (parse_batch_llm_response s) := by
  by_cases hie : s.isEmpty
  · left; rw [parse_batch_llm_response, if_pos hie]
  · rw [parse_batch_llm_response, if_neg hie]
    cases hj : json_loads (clean_batch s) with
    | none => simpa [hj] using parse_batch_extract_shape (clean_batch s)
    | some v =>
        cases v with
        | arr l =>
            right
            exact ⟨clean_batch s, PyJson.arr l, hj, Or.inl (by simp [hj])⟩
        | obj kvs =>
            cases hw : firstWrappedList (PyJson.obj kvs) with
            | some l =>
                right
                obtain ⟨k, hk, hfk⟩ := findSome?_exists _ _ _ hw
                refine ⟨clean_batch s, PyJson.obj kvs, hj, Or.inr ⟨kvs, rfl, Or.inr ⟨k, hk, ?_⟩⟩⟩
                simp only [hj, hw]
                cases hg : (PyJson.obj kvs).get k with
                | none => rw [hg] at hfk; cases hfk
                | some gv =>
                    rw [hg] at hfk
                    cases gv with
                    | arr l' => cases hfk; rfl
                    | null => cases hfk
                    | bool b => cases hfk
                    | num q => cases hfk
                    | str t => cases hfk
                    | obj kvs' => cases hfk
            | none =>
                right
                exact ⟨clean_batch s, PyJson.obj kvs, hj,
                  Or.inr ⟨kvs, rfl, Or.inl (by simp [hj, hw])⟩⟩
        | null => simpa [hj] using parse_batch_extract_shape (clean_batch s)
        | bool b => simpa [hj] using parse_batch_extract_shape (clean_batch s)
        | num q => simpa [hj] using parse_batch_extract_shape (clean_batch s)
        | str t => simpa [hj] using parse_batch_extract_shape (clean_batch s)

/-- C6: the response normalizer never raises and cannot confuse a
parse failure with a legitimate neutral result: `parse_llm_response`
is total and returns either the explicit failure sentinel or a dict
coming from a successful JSON parse; `parse_batch_llm_response` is
total and returns a list — empty on total failure, otherwise contents
of a successfully parsed value; and the failure sentinel carries the
`__parse_failed__` flag, which the legitimate neutral (default)
annotation lacks, so the two are distinguishable. -/
theorem C6_normalizer_never_raises (s : List Char) :
    (parse_llm_response s = failure_sentinel s ∨
      ∃ kvs cs, json_loads cs = some (PyJson.obj kvs) ∧
        parse_llm_response s = PyJson.obj kvs) ∧
    (parse_batch_llm_response s = [] ∨
      ∃ cs v, json_loads cs = some v ∧ FromParsedList v (parse_batch_llm_response s)) ∧
    getTruthy (failure_sentinel s) "__parse_failed__" = true ∧
    getTruthy get_default_annotation "__parse_failed__" = false ∧
    failure_sentinel s ≠ get_default_annotation :=
  ⟨parse_llm_response_shape s, parse_batch_response_shape s, rfl, rfl,
    by simp [failure_sentinel, get_default_annotation]⟩

/-! C9: the extraction step's actual precedence. -/

/-- C9 counterexample: on a response where direct parse fails and a
top-level object starts at position 0 before a top-level array at
position 9, the batch normalizer returns the parse of the **array**,
not of the object that starts first — refuting "whichever of the two
starts first in the text". -/
theorem C9_counterexample :
    json_loads (clean_batch C9_cex_input) = none ∧
    pyFind '{' (clean_batch C9_cex_input) = some 0 ∧
    pyFind '[' (clean_batch C9_cex_input) = some 9 ∧
    parse_batch_llm_response C9_cex_input = [PyJson.num 2] ∧
    ([PyJson.num 2] : List PyJson) ≠ [PyJson.obj [("a", PyJson.num 1)]] :=
  ⟨rfl, rfl, rfl, rfl, by simp⟩

/-- C9 (amended): when the direct parse of the cleaned batch response
fails, the extraction scans left-to-right tracking quote state and
bracket depth, but tries the first balanced top-level **array** first
— regardless of whether an object starts earlier in the text — and
falls back to the first balanced top-level object only when no array
parses; and `BaseLLMProvider.extract_json` does not do a balanced
scan at all: it slices from the first `{` to the **last** `}`
(preferring an array slice only when a `[` starts before the first
`{`), as the concrete two-object input shows. -/
theorem C9_amended_array_first :
    (∀ (s aj : List Char) (l : List PyJson),
      s ≠ [] →
      json_loads (clean_batch s) = none →
      extract_top_level_array (clean_batch s) = some aj →
      json_loads aj = some (PyJson.arr l) →
      parse_batch_llm_response s = l) ∧
    extract_json "x \x7b\"a\":1\x7d \x7b\"b\":2\x7d".data = "\x7b\"a\":1\x7d \x7b\"b\":2\x7d".data := by
  constructor
  · intro s aj l hne hj ha hja
    have hie : s.isEmpty = false := by
      cases s with
      | nil => exact absurd rfl hne
      | cons a t => rfl
    rw [parse_batch_llm_response, hie]
    simp only [Bool.false_eq_true, if_false, hj]
    simp only [parse_batch_extract, ha, hja]
  · rfl

/-- C9 witness: the amended array-first behaviour at the concrete
input (the array `[2]` extracted and returned even though an object
starts earlier). -/
theorem C9_amended_witness :
    parse_batch_llm_response C9_wit_input = [PyJson.num 2] :=
  C9_amended_array_first.1 C9_wit_input "[2]".data [PyJson.num 2]
    (by decide) rfl rfl rfl

/-! C5: mapping behaviour of `annotate_batch` by parsed-count. -/

theorem mem_setInsert (s : List Nat) (i j : Nat) :
    j ∈ setInsert s i ↔ j ∈ s ∨ j = i := by
  by_cases h : i ∈ s
  · simp only [setInsert, if_pos h]
    constructor
    · exact Or.inl
    · rintro (hj | rfl)
      · exact hj
      · exact h
  · simp [setInsert, if_neg h]

theorem mem_dedupNat (l : List Nat) (i : Nat) : i ∈ dedupNat l ↔ i ∈ l := by
  induction l with
  | nil => rfl
  | cons x xs ih =>
      simp only [dedupNat, List.mem_cons, List.mem_filter, ih]
      constructor
      · rintro (rfl | ⟨hmem, _⟩)
        · exact Or.inl rfl
        · exact Or.inr hmem
      · rintro (rfl | hmem)
        · exact Or.inl rfl
        · by_cases hx : i = x
          · exact Or.inl hx
          · exact Or.inr ⟨hmem, by simpa using hx⟩

theorem dedupNat_lt (l : List Nat) (n : Nat) (h : ∀ i ∈ l, i < n) :
    ∀ i ∈ dedupNat l, i < n := fun i hi => h i ((mem_dedupNat l i).mp hi)

theorem load_existing_length (total : Nat) (ldata : List PyJson) :
    (load_existing total ldata).length = total := by
  rw [load_existing]
  suffices hgen : ∀ (init : List (Option LineAnnotation)),
      (ldata.foldl (fun results ann_dict =>
        match rsplit_line_suffix (PyJson.getStr ann_dict "id" "").data with
        | some suffix =>
            match parse_digits suffix with
            | some idx =>
                if idx < total then results.set idx (some ( LineAnnotation.from_dict ann_dict))
                else results
            | none => results
        | none => results) init).length = init.length by
    rw [hgen]; exact List.length_replicate total none
  intro init
  induction ldata generalizing init with
  | nil => rfl
  | cons d rest ih =>
      rw [List.foldl_cons, ih]
      cases rsplit_line_suffix (PyJson.getStr d "id" "").data with
      | none => rfl
      | some suffix =>
          show (match parse_digits suffix with
                | some idx =>
                    if idx < total then init.set idx (some ( LineAnnotation.from_dict d)) else init
                | none => init).length = init.length
          cases parse_digits suffix with
          | none => rfl
          | some idx =>
              show (if idx < total then init.set idx (some ( LineAnnotation.from_dict d))
                    else init).length = init.length
              by_cases hlt : idx < total
              · simp [hlt, List.length_set]
              · simp [hlt]

theorem apply_pairs_results_length :
    ∀ (pairs : List (Nat × LineAnnotation)) (st : EngState),
      (apply_pairs st pairs).results.length = st.results.length := by
  intro pairs
  induction pairs with
  | nil => intro st; rfl
  | cons p rest ih =>
      intro st
      rw [apply_pairs, ih]
      exact List.length_set st.results p.1 _

theorem record_batch_failure_results_length (m : String) (now : PyNum) :
    ∀ (items : List BatchItem) (st : EngState),
      (record_batch_failure m now st items).results.length = st.results.length := by
  intro items
  induction items with
  | nil => intro st; rfl
  | cons item rest ih =>
      intro st
      rw [record_batch_failure, ih]
      exact List.length_set st.results item.idx _

theorem do_save_results (ctx : SaveCtx) (st : EngState) :
    (do_save ctx st).results = st.results := rfl

theorem check_pause_results (ctx : SaveCtx) (p c : Bool) (st : EngState) :
    (check_pause ctx p c st).1.results = st.results := by
  rw [check_pause]
  by_cases hp : p = true
  · rw [if_pos hp]; rfl
  · rw [if_neg hp]

theorem maybe_save_results (ctx : SaveCtx) (st : EngState) :
    (maybe_save ctx st).results = st.results := by
  rw [maybe_save]
  split
  · rfl
  · rfl

theorem do_save_completed (ctx : SaveCtx) (st : EngState) :
    (do_save ctx st).completed_indices = st.completed_indices := rfl

theorem check_pause_completed (ctx : SaveCtx) (p c : Bool) (st : EngState) :
    (check_pause ctx p c st).1.completed_indices = st.completed_indices := by
  rw [check_pause]
  by_cases hp : p = true
  · rw [if_pos hp]; rfl
  · rw [if_neg hp]

theorem maybe_save_completed (ctx : SaveCtx) (st : EngState) :
    (maybe_save ctx st).completed_indices = st.completed_indices := by
  rw [maybe_save]
  split
  · rfl
  · rfl

/-- `results.getD i none` through `List.set` at a different index. -/
theorem getD_set_ne' {α : Type} (l : List α) (j : Nat) (v : α) (i : Nat) (d : α)
    (h : i ≠ j) : (l.set j v).getD i d = l.getD i d := by
  simp [List.getD_eq_getElem?_getD, List.getElem?_set_ne (fun hh => h hh.symm)]

/-- `results.getD i none` after `List.set` at the same (in-range) index. -/
theorem getD_set_self' {α : Type} (l : List α) (i : Nat) (v : α) (d : α)
    (h : i < l.length) : (l.set i v).getD i d = v := by
  simp [List.getD_eq_getElem?_getD, List.getElem?_set_eq_of_lt v h]

/-! Write-set lemmas: which indices each step can change. -/

theorem apply_pairs_getD_out :
    ∀ (pairs : List (Nat × LineAnnotation)) (st : EngState) (i : Nat),
      i ∉ pairs.map Prod.fst →
      (apply_pairs st pairs).results.getD i none = st.results.getD i none := by
  intro pairs
  induction pairs with
  | nil => intro st i _; rfl
  | cons p rest ih =>
      intro st i hni
      simp only [List.map_cons, List.mem_cons, not_or] at hni
      rw [apply_pairs, ih _ _ hni.2]
      exact getD_set_ne' st.results p.1 _ i none hni.1

theorem record_batch_failure_getD_out (m : String) (now : PyNum) :
    ∀ (items : List BatchItem) (st : EngState) (i : Nat),
      i ∉ items.map BatchItem.idx →
      (record_batch_failure m now st items).results.getD i none
        = st.results.getD i none := by
  intro items
  induction items with
  | nil => intro st i _; rfl
  | cons item rest ih =>
      intro st i hni
      simp only [List.map_cons, List.mem_cons, not_or] at hni
      rw [record_batch_failure, ih _ _ hni.2]
      exact getD_set_ne' st.results item.idx _ i none hni.1

/-! The pairs returned by `annotate_batch` target exactly the unit's
line indices, in order. -/

theorem annotate_batch_fallback_fst (bs : BatchSettings) (oracle : Oracle)
    (m sp : String) (now : PyNum) :
    ∀ (items : List BatchItem) (counter : Nat),
      ((annotate_batch_fallback bs oracle m sp now items counter).1).map Prod.fst
        = items.map BatchItem.idx := by
  intro items
  induction items with
  | nil => intro counter; rfl
  | cons item rest ih =>
      intro counter
      simp [annotate_batch_fallback, ih]

theorem annotate_batch_map_fst (bs : BatchSettings) (oracle : Oracle)
    (m sp : String) (now : PyNum) (pr : List PyJson) (useSeq : Bool)
    (entries : List (PyJson × PyJson)) :
    ∀ (items : List BatchItem) (i counter : Nat),
      ((annotate_batch_map bs oracle m sp now pr useSeq entries items i counter).1).map Prod.fst
        = items.map BatchItem.idx := by
  intro items
  induction items with
  | nil => intro i counter; rfl
  | cons item rest ih =>
      intro i counter
      cases h : mapped_parsed pr useSeq entries i <;>
        simp [annotate_batch_map, h, ih]

theorem annotate_batch_fst (bs : BatchSettings) (oracle : Oracle) (counter : Nat)
    (lines_batch : List BatchItem) (mn mid sp : String) (now : PyNum) :
    ∀ pairs, (annotate_batch bs oracle counter lines_batch mn mid sp now).1
        = Except.ok pairs →
      pairs.map Prod.fst = lines_batch.map BatchItem.idx := by
  intro pairs hp
  by_cases hie : lines_batch.isEmpty
  · have hnil : lines_batch = [] := by
      cases lines_batch with
      | nil => rfl
      | cons a t => simp [List.isEmpty] at hie
    subst hnil
    have hpe : pairs = [] := by
      have : (Except.ok [] : Except String (List (Nat × LineAnnotation)))
          = Except.ok pairs := hp
      simpa using this.symm
    subst hpe
    rfl
  · have hie' : lines_batch.isEmpty = false := by simpa using hie
    rcases hpl : annotate_batch_loop oracle bs.retry_on_failure bs.max_retries counter
      with ⟨pr, c₁⟩
    rw [annotate_batch, hie', hpl] at hp
    simp only [Bool.false_eq_true, if_false] at hp
    by_cases hlt : pr.length < lines_batch.length
    · rw [if_pos hlt] at hp
      have hfb : (annotate_batch_fallback bs oracle (if mid != "" then mid else mn) sp now
          lines_batch c₁).1 = pairs := by
        simpa using hp
      rw [← hfb, annotate_batch_fallback_fst]
    · rw [if_neg hlt] at hp
      cases him : index_map_entries pr with
      | error e =>
          rw [him] at hp
          simp at hp
      | ok entries =>
          rw [him] at hp
          simp only [] at hp
          have hmp : (annotate_batch_map bs oracle (if mid != "" then mid else mn) sp now pr
              (pr.length == lines_batch.length) entries lines_batch 0 c₁).1 = pairs := by
            simpa using hp
          rw [← hmp, annotate_batch_map_fst]

/-! Process-loop non-interference: lines outside every processed unit
keep their value (any pause/cancel signals, any injected failures). -/

theorem process_units_batch_getD_out (ctx : SaveCtx) (bs : BatchSettings) (oracle : Oracle)
    (inject : Nat → Option String) (p c : Bool) (m mn : String) :
    ∀ (units : List (List BatchItem)) (u : Nat) (st : EngState) (i : Nat),
      (∀ b ∈ units, i ∉ b.map BatchItem.idx) →
      (process_units_batch ctx bs oracle inject p c m mn units u st).results.getD i none
        = st.results.getD i none := by
  intro units
  induction units with
  | nil => intro u st i _; rfl
  | cons batch rest ih =>
      intro u st i hout
      have hbatch : i ∉ batch.map BatchItem.idx := hout batch (List.mem_cons_self _ _)
      have hrest : ∀ b ∈ rest, i ∉ b.map BatchItem.idx :=
        fun b hb => hout b (List.mem_cons_of_mem _ hb)
      rw [process_units_batch]
      by_cases hc : c = true
      · rw [if_pos hc]
      · rw [if_neg hc]
        by_cases hbrk : (check_pause ctx p c st).2 = true
        · rw [if_pos hbrk, check_pause_results]
        · rw [if_neg hbrk]
          cases hinj : inject u with
          | some e =>
              rw [ih _ _ _ hrest, record_batch_failure_getD_out _ _ _ _ _ hbatch,
                check_pause_results]
          | none =>
              simp only []
              cases hab : (annotate_batch bs oracle (check_pause ctx p c st).1.counter batch
                  mn m ctx.subtitle_path ctx.now).1 with
              | error err =>
                  simp only []
                  rw [ih _ _ _ hrest, record_batch_failure_getD_out _ _ _ _ _ hbatch]
                  rw [show ({ (check_pause ctx p c st).1 with
                        counter := (annotate_batch bs oracle
                          (check_pause ctx p c st).1.counter batch
                          mn m ctx.subtitle_path ctx.now).2 } : EngState).results
                      = (check_pause ctx p c st).1.results from rfl]
                  rw [check_pause_results]
              | ok pairs =>
                  simp only []
                  rw [ih _ _ _ hrest, maybe_save_results]
                  rw [apply_pairs_getD_out _ _ i (by
                    rw [annotate_batch_fst bs oracle (check_pause ctx p c st).1.counter batch
                      mn m ctx.subtitle_path ctx.now pairs hab]
                    exact hbatch)]
                  rw [show ({ (check_pause ctx p c st).1 with
                        counter := (annotate_batch bs oracle
                          (check_pause ctx p c st).1.counter batch
                          mn m ctx.subtitle_path ctx.now).2 } : EngState).results
                      = (check_pause ctx p c st).1.results from rfl]
                  rw [check_pause_results]

theorem process_lines_getD_out (ctx : SaveCtx) (bs : BatchSettings) (oracle : Oracle)
    (inject : Nat → Option String) (p c : Bool) (m : String) (lines : List SrtLine)
    (ws : Nat) :
    ∀ (idxs : List Nat) (u : Nat) (st : EngState) (i : Nat),
      i ∉ idxs →
      (process_lines ctx bs oracle inject p c m lines ws idxs u st).results.getD i none
        = st.results.getD i none := by
  intro idxs
  induction idxs with
  | nil => intro u st i _; rfl
  | cons j rest ih =>
      intro u st i hout
      simp only [List.mem_cons, not_or] at hout
      rw [process_lines]
      by_cases hc : c = true
      · rw [if_pos hc]
      · rw [if_neg hc]
        by_cases hbrk : (check_pause ctx p c st).2 = true
        · rw [if_pos hbrk, check_pause_results]
        · rw [if_neg hbrk]
          cases hinj : inject u with
          | some e =>
              rw [ih _ _ _ hout.2]
              rw [show ({ (check_pause ctx p c st).1 with
                    results := (check_pause ctx p c st).1.results.set j
                      (some (blank_record m j (lines.getD j ⟨"", 0, 0⟩).text
                        (lines.getD j ⟨"", 0, 0⟩).start (lines.getD j ⟨"", 0, 0⟩).end_ ctx.now))
                    completed := (check_pause ctx p c st).1.completed + 1
                    completed_indices := setInsert (check_pause ctx p c st).1.completed_indices j }
                    : EngState).results
                  = (check_pause ctx p c st).1.results.set j
                      (some (blank_record m j (lines.getD j ⟨"", 0, 0⟩).text
                        (lines.getD j ⟨"", 0, 0⟩).start (lines.getD j ⟨"", 0, 0⟩).end_ ctx.now))
                  from rfl]
              rw [getD_set_ne' _ j _ i none hout.1, check_pause_results]
          | none =>
              rw [ih _ _ _ hout.2, maybe_save_results]
              simp only []
              rw [getD_set_ne' _ j _ i none hout.1, check_pause_results]

/-! Submission loops: the submitted units are a sub-collection of the
built ones (any signals), and everything is submitted when no signal
is set. -/

theorem submit_units_mem (ctx : SaveCtx) (p c : Bool) :
    ∀ (batches : List (List BatchItem)) (st : EngState) (b : List BatchItem),
      b ∈ (submit_units ctx p c batches st).1 → b ∈ batches := by
  intro batches
  induction batches with
  | nil => intro st b h; exact absurd h (by simp [submit_units])
  | cons batch rest ih =>
      intro st b h
      rw [submit_units] at h
      by_cases hc : c = true
      · rw [if_pos hc] at h
        exact absurd h (by simp)
      · rw [if_neg hc] at h
        by_cases hbrk : (check_pause ctx p c st).2 = true
        · rw [if_pos hbrk] at h
          exact absurd h (by simp)
        · rw [if_neg hbrk] at h
          rcases List.mem_cons.mp h with h | h
          · exact h ▸ List.mem_cons_self _ _
          · exact List.mem_cons_of_mem _ (ih _ _ h)

theorem submit_units_all (ctx : SaveCtx) :
    ∀ (batches : List (List BatchItem)) (st : EngState),
      submit_units ctx false false batches st = (batches, st) := by
  intro batches
  induction batches with
  | nil => intro st; rfl
  | cons batch rest ih =>
      intro st
      rw [submit_units]
      simp [check_pause, ih]

theorem submit_lines_mem (ctx : SaveCtx) (p c : Bool) (comp : List Nat) :
    ∀ (l : List Nat) (st : EngState) (i : Nat),
      i ∈ (submit_lines ctx p c comp l st).1 → i ∈ l ∧ comp.contains i = false := by
  intro l
  induction l with
  | nil => intro st i h; exact absurd h (by simp [submit_lines])
  | cons j rest ih =>
      intro st i h
      rw [submit_lines] at h
      by_cases hj : comp.contains j
      · rw [if_pos hj] at h
        obtain ⟨hm, hc⟩ := ih _ _ h
        exact ⟨List.mem_cons_of_mem _ hm, hc⟩
      · rw [if_neg hj] at h
        by_cases hc : c = true
        · rw [if_pos hc] at h
          exact absurd h (by simp)
        · rw [if_neg hc] at h
          by_cases hbrk : (check_pause ctx p c st).2 = true
          · rw [if_pos hbrk] at h
            exact absurd h (by simp)
          · rw [if_neg hbrk] at h
            rcases List.mem_cons.mp h with h | h
            · subst h
              exact ⟨List.mem_cons_self _ _, by simpa using hj⟩
            · obtain ⟨hm, hcc⟩ := ih _ _ h
              exact ⟨List.mem_cons_of_mem _ hm, hcc⟩

theorem submit_lines_all (ctx : SaveCtx) (comp : List Nat) :
    ∀ (l : List Nat) (st : EngState),
      submit_lines ctx false false comp l st
        = (l.filter (fun i => !comp.contains i), st) := by
  intro l
  induction l with
  | nil => intro st; rfl
  | cons j rest ih =>
      intro st
      rw [submit_lines]
      by_cases hj : comp.contains j
      · rw [if_pos hj, ih]
        have hjm : j ∈ comp := by simpa using hj
        simp [List.filter_cons, hjm]
      · rw [if_neg hj]
        have hjm : j ∉ comp := by simpa using hj
        simp [check_pause, ih, List.filter_cons, hjm]

theorem submit_units_results (ctx : SaveCtx) (p c : Bool) :
    ∀ (batches : List (List BatchItem)) (st : EngState),
      (submit_units ctx p c batches st).2.results = st.results := by
  intro batches
  induction batches with
  | nil => intro st; rfl
  | cons batch rest ih =>
      intro st
      rw [submit_units]
      by_cases hc : c = true
      · rw [if_pos hc]
      · rw [if_neg hc]
        by_cases hbrk : (check_pause ctx p c st).2 = true
        · rw [if_pos hbrk]
          exact check_pause_results ctx p c st
        · rw [if_neg hbrk]
          show (submit_units ctx p c rest (check_pause ctx p c st).1).2.results = st.results
          rw [ih, check_pause_results]

theorem submit_lines_results (ctx : SaveCtx) (p c : Bool) (comp : List Nat) :
    ∀ (l : List Nat) (st : EngState),
      (submit_lines ctx p c comp l st).2.results = st.results := by
  intro l
  induction l with
  | nil => intro st; rfl
  | cons j rest ih =>
      intro st
      rw [submit_lines]
      by_cases hj : comp.contains j
      · rw [if_pos hj, ih]
      · rw [if_neg hj]
        by_cases hc : c = true
        · rw [if_pos hc]
        · rw [if_neg hc]
          by_cases hbrk : (check_pause ctx p c st).2 = true
          · rw [if_pos hbrk]
            exact check_pause_results ctx p c st
          · rw [if_neg hbrk]
            show (submit_lines ctx p c comp rest (check_pause ctx p c st).1).2.results
                = st.results
            rw [ih, check_pause_results]

theorem mk_batch_idx_map (lines : List SrtLine) (comp : List Nat) (ws bsz i : Nat) :
    (mk_batch lines comp ws bsz i).map BatchItem.idx
      = (List.range (min lines.length (i + bsz))).filter
          (fun j => decide (i ≤ j) && !(comp.contains j)) := by
  rw [mk_batch, List.map_map]
  exact List.map_id' _

theorem build_batches_exclude (lines : List SrtLine) (comp : List Nat) (ws bsz : Nat)
    (c : Bool) :
    ∀ b ∈ build_batches lines comp ws bsz c, ∀ j ∈ b.map BatchItem.idx,
      comp.contains j = false ∧ j < lines.length := by
  intro b hb j hj
  rw [build_batches] at hb
  by_cases hc : c = true
  · rw [if_pos hc] at hb
    exact absurd hb (by simp)
  · rw [if_neg hc] at hb
    obtain ⟨hbm, -⟩ := List.mem_filter.mp hb
    obtain ⟨blk, -, hbeq⟩ := List.mem_map.mp hbm
    rw [← hbeq, mk_batch_idx_map] at hj
    obtain ⟨hrange, hcond⟩ := List.mem_filter.mp hj
    simp only [List.mem_range] at hrange
    simp only [Bool.and_eq_true, decide_eq_true_eq, Bool.not_eq_true'] at hcond
    exact ⟨hcond.2, lt_of_lt_of_le hrange (min_le_left _ _)⟩

/-! Finale lemmas. -/

theorem engine_finale_final_results (ctx : SaveCtx) (p c : Bool)
    (subs : List (List Nat)) (st : EngState) :
    (engine_finale ctx p c subs st).final_results = st.results := by
  rw [engine_finale]
  by_cases hp : p = true
  · rw [if_pos hp]; exact do_save_results ctx st
  · rw [if_neg hp]
    by_cases hc : c = true
    · rw [if_pos hc]; exact do_save_results ctx st
    · rw [if_neg hc]
      cases hcp : (incremental_save ctx ((st.results.filterMap id).map some)).checkpoint <;>
        simp [hcp]

theorem engine_finale_submitted (ctx : SaveCtx) (p c : Bool)
    (subs : List (List Nat)) (st : EngState) :
    (engine_finale ctx p c subs st).submitted = subs := by
  rw [engine_finale]
  by_cases hp : p = true
  · rw [if_pos hp]
  · rw [if_neg hp]
    by_cases hc : c = true
    · rw [if_pos hc]
    · rw [if_neg hc]
      cases hcp : (incremental_save ctx ((st.results.filterMap id).map some)).checkpoint <;>
        simp [hcp]

/-! Phase-level exclusion and non-interference for an initially
completed index. -/

theorem engine_phase_batch_excluded (ctx : SaveCtx) (bs : BatchSettings) (oracle : Oracle)
    (inject : Nat → Option String) (p c : Bool) (m mn : String) (lines : List SrtLine)
    (ws bsz : Nat) (comp : List Nat) (st₀ : EngState) (i : Nat)
    (hic : comp.contains i = true) :
    ∀ u ∈ (engine_phase_batch ctx bs oracle inject p c m mn lines ws bsz comp st₀).1,
      i ∉ u := by
  intro u hu hiu
  simp only [engine_phase_batch] at hu
  obtain ⟨b, hb, rfl⟩ := List.mem_map.mp hu
  have hbb := submit_units_mem ctx p c _ _ _ hb
  have hfalse := (build_batches_exclude lines comp ws bsz c b hbb i hiu).1
  rw [hfalse] at hic
  cases hic

theorem engine_phase_batch_getD (ctx : SaveCtx) (bs : BatchSettings) (oracle : Oracle)
    (inject : Nat → Option String) (p c : Bool) (m mn : String) (lines : List SrtLine)
    (ws bsz : Nat) (comp : List Nat) (st₀ : EngState) (i : Nat)
    (hic : comp.contains i = true) :
    (engine_phase_batch ctx bs oracle inject p c m mn lines ws bsz comp
        st₀).2.results.getD i none
      = st₀.results.getD i none := by
  have hout : ∀ b ∈ (submit_units ctx p c (build_batches lines comp ws bsz c) st₀).1,
      i ∉ b.map BatchItem.idx := by
    intro b hb hiu
    have hbb := submit_units_mem ctx p c _ _ _ hb
    have hfalse := (build_batches_exclude lines comp ws bsz c b hbb i hiu).1
    rw [hfalse] at hic
    cases hic
  simp only [engine_phase_batch]
  rw [process_units_batch_getD_out ctx bs oracle inject p c m mn _ 0 _ i hout,
      submit_units_results]

theorem engine_phase_single_excluded (ctx : SaveCtx) (bs : BatchSettings) (oracle : Oracle)
    (inject : Nat → Option String) (p c : Bool) (m : String) (lines : List SrtLine)
    (ws : Nat) (comp : List Nat) (st₀ : EngState) (i : Nat)
    (hic : comp.contains i = true) :
    ∀ u ∈ (engine_phase_single ctx bs oracle inject p c m lines ws comp st₀).1,
      i ∉ u := by
  intro u hu hiu
  simp only [engine_phase_single] at hu
  obtain ⟨j, hj, rfl⟩ := List.mem_map.mp hu
  have hij : i = j := by simpa using hiu
  have hfalse := (submit_lines_mem ctx p c comp _ _ _ hj).2
  rw [← hij] at hfalse
  rw [hfalse] at hic
  cases hic

theorem engine_phase_single_getD (ctx : SaveCtx) (bs : BatchSettings) (oracle : Oracle)
    (inject : Nat → Option String) (p c : Bool) (m : String) (lines : List SrtLine)
    (ws : Nat) (comp : List Nat) (st₀ : EngState) (i : Nat)
    (hic : comp.contains i = true) :
    (engine_phase_single ctx bs oracle inject p c m lines ws comp st₀).2.results.getD i none
      = st₀.results.getD i none := by
  have hout : i ∉ (submit_lines ctx p c comp (List.range lines.length) st₀).1 := by
    intro hmem
    have hfalse := (submit_lines_mem ctx p c comp _ _ _ hmem).2
    rw [hfalse] at hic
    cases hic
  simp only [engine_phase_single]
  rw [process_lines_getD_out ctx bs oracle inject p c m lines ws _ 0 _ i hout,
      submit_lines_results]

/-- C3: resuming with a loaded checkpoint whose completed-index set
contains `i` never submits line `i` to the backend in any unit, and
the final results at `i` equal the record loaded from the prior
output file. -/
theorem C3_resume_no_reinvocation (bs : BatchSettings) (oracle : Oracle)
    (inject : Nat → Option String) (lines : List SrtLine)
    (mn mid sp lp : String) (ws bsz si : Nat) (cB pB : Bool)
    (cp : Checkpoint) (ldata : List PyJson) (now : PyNum) (i : Nat)
    (hi : i ∈ cp.completed_indices) :
    (∀ u ∈ (annotate_subtitle_file bs oracle inject lines mn mid sp lp ws bsz si
        cB pB true (some cp) (OutputLoad.loaded ldata) now).submitted, i ∉ u) ∧
    (annotate_subtitle_file bs oracle inject lines mn mid sp lp ws bsz si
        cB pB true (some cp) (OutputLoad.loaded ldata) now).final_results.getD i none
      = (load_existing lines.length ldata).getD i none := by
  have hne : cp.completed_indices.isEmpty = false := by
    cases hcc : cp.completed_indices with
    | nil => rw [hcc] at hi; exact absurd hi (List.not_mem_nil i)
    | cons a t => rfl
  have hres : engine_resume_init lines.length true (some cp) (OutputLoad.loaded ldata)
      = (dedupNat cp.completed_indices, load_existing lines.length ldata) := by
    rw [engine_resume_init]
    simp [hne]
  have hic : (dedupNat cp.completed_indices).contains i = true := by
    simpa using (mem_dedupNat cp.completed_indices i).mpr hi
  by_cases hle : lines.isEmpty
  · have hl : lines = [] := by
      cases lines with
      | nil => rfl
      | cons a t => simp [List.isEmpty] at hle
    subst hl
    constructor
    · intro u hu
      rw [annotate_subtitle_file] at hu
      simp at hu
    · rw [annotate_subtitle_file]
      have h0 : load_existing 0 ldata = [] :=
        List.eq_nil_of_length_eq_zero (load_existing_length 0 ldata)
      simp [h0]
  · have hlef : lines.isEmpty = false := by simpa using hle
    constructor
    · intro u hu
      rw [annotate_subtitle_file, hlef] at hu
      simp only [Bool.false_eq_true, if_false, hres] at hu
      by_cases hrem : (lines.length : Int) - (dedupNat cp.completed_indices).length ≤ 0
      · rw [if_pos hrem] at hu
        simp [engine_already_complete] at hu
      · rw [if_neg hrem] at hu
        rw [engine_finale_submitted] at hu
        by_cases hub : resolve_batch_size bsz lines.length > 1
        · rw [if_pos hub] at hu
          exact engine_phase_batch_excluded _ _ _ _ _ _ _ _ _ _ _ _ _ _ hic u hu
        · rw [if_neg hub] at hu
          exact engine_phase_single_excluded _ _ _ _ _ _ _ _ _ _ _ _ hic u hu
    · rw [annotate_subtitle_file, hlef]
      simp only [Bool.false_eq_true, if_false, hres]
      by_cases hrem : (lines.length : Int) - (dedupNat cp.completed_indices).length ≤ 0
      · rw [if_pos hrem]
        simp [engine_already_complete]
      · rw [if_neg hrem]
        rw [engine_finale_final_results]
        by_cases hub : resolve_batch_size bsz lines.length > 1
        · rw [if_pos hub]
          rw [engine_phase_batch_getD _ _ _ _ _ _ _ _ _ _ _ _ _ _ hic]
        · rw [if_neg hub]
          rw [engine_phase_single_getD _ _ _ _ _ _ _ _ _ _ _ _ hic]

/-- Witness for C3: a concrete two-line resumed run with line 0 already
completed in the checkpoint. -/
theorem C3_witness :
    0 ∈ [0] ∧
    ((∀ u ∈ (annotate_subtitle_file ⟨true, 2⟩ (fun _ => Except.error "TimeoutError")
        (fun _ => none) [⟨"甲", 0, 1⟩, ⟨"乙", 1, 2⟩] "n" "m" "p" "prov" 1 2 1
        false false true (some ⟨"m", "n", "p", "prov", 2, [0], 1, 0, 2, 1⟩)
        (OutputLoad.loaded []) 0).submitted, 0 ∉ u) ∧
      (annotate_subtitle_file ⟨true, 2⟩ (fun _ => Except.error "TimeoutError")
        (fun _ => none) [⟨"甲", 0, 1⟩, ⟨"乙", 1, 2⟩] "n" "m" "p" "prov" 1 2 1
        false false true (some ⟨"m", "n", "p", "prov", 2, [0], 1, 0, 2, 1⟩)
        (OutputLoad.loaded []) 0).final_results.getD 0 none
        = (load_existing ([⟨"甲", 0, 1⟩, ⟨"乙", 1, 2⟩] : List SrtLine).length []).getD 0 none) :=
  ⟨List.mem_cons_self 0 [],
    C3_resume_no_reinvocation ⟨true, 2⟩ (fun _ => Except.error "TimeoutError")
      (fun _ => none) [⟨"甲", 0, 1⟩, ⟨"乙", 1, 2⟩] "n" "m" "p" "prov" 1 2 1
      false false ⟨"m", "n", "p", "prov", 2, [0], 1, 0, 2, 1⟩ [] 0 0
      (List.mem_cons_self 0 [])⟩

/-! Length preservation through the result loops. -/

theorem process_units_batch_results_length (ctx : SaveCtx) (bs : BatchSettings)
    (oracle : Oracle) (inject : Nat → Option String) (p c : Bool) (m mn : String) :
    ∀ (units : List (List BatchItem)) (u : Nat) (st : EngState),
      (process_units_batch ctx bs oracle inject p c m mn units u st).results.length
        = st.results.length := by
  intro units
  induction units with
  | nil => intro u st; rfl
  | cons batch rest ih =>
      intro u st
      rw [process_units_batch]
      by_cases hc : c = true
      · rw [if_pos hc]
      · rw [if_neg hc]
        by_cases hbrk : (check_pause ctx p c st).2 = true
        · rw [if_pos hbrk, check_pause_results]
        · rw [if_neg hbrk]
          cases hinj : inject u with
          | some e =>
              rw [ih, record_batch_failure_results_length, check_pause_results]
          | none =>
              simp only []
              cases hab : (annotate_batch bs oracle (check_pause ctx p c st).1.counter batch
                  mn m ctx.subtitle_path ctx.now).1 with
              | error err =>
                  simp only []
                  rw [ih, record_batch_failure_results_length]
                  rw [show ({ (check_pause ctx p c st).1 with
                        counter := (annotate_batch bs oracle
                          (check_pause ctx p c st).1.counter batch
                          mn m ctx.subtitle_path ctx.now).2 } : EngState).results
                      = (check_pause ctx p c st).1.results from rfl]
                  rw [check_pause_results]
              | ok pairs =>
                  simp only []
                  rw [ih, maybe_save_results, apply_pairs_results_length]
                  rw [show ({ (check_pause ctx p c st).1 with
                        counter := (annotate_batch bs oracle
                          (check_pause ctx p c st).1.counter batch
                          mn m ctx.subtitle_path ctx.now).2 } : EngState).results
                      = (check_pause ctx p c st).1.results from rfl]
                  rw [check_pause_results]

theorem process_lines_results_length (ctx : SaveCtx) (bs : BatchSettings)
    (oracle : Oracle) (inject : Nat → Option String) (p c : Bool) (m : String)
    (lines : List SrtLine) (ws : Nat) :
    ∀ (idxs : List Nat) (u : Nat) (st : EngState),
      (process_lines ctx bs oracle inject p c m lines ws idxs u st).results.length
        = st.results.length := by
  intro idxs
  induction idxs with
  | nil => intro u st; rfl
  | cons j rest ih =>
      intro j st
      rw [process_lines]
      by_cases hc : c = true
      · rw [if_pos hc]
      · rw [if_neg hc]
        by_cases hbrk : (check_pause ctx p c st).2 = true
        · rw [if_pos hbrk, check_pause_results]
        · rw [if_neg hbrk]
          cases hinj : inject j with
          | some e =>
              rw [ih]
              show ((check_pause ctx p c st).1.results.set _ _).length = st.results.length
              rw [List.length_set, check_pause_results]
          | none =>
              rw [ih, maybe_save_results]
              show ((check_pause ctx p c st).1.results.set _ _).length = st.results.length
              rw [List.length_set, check_pause_results]

/-! What the result loops write at an index they process. -/

theorem record_batch_failure_getD_mem (m : String) (now : PyNum) (v : LineAnnotation) :
    ∀ (items : List BatchItem) (st : EngState) (i : Nat),
      i < st.results.length → i ∈ items.map BatchItem.idx →
      (∀ it ∈ items, it.idx = i →
          blank_record m it.idx it.text it.start it.end_ now = v) →
      (record_batch_failure m now st items).results.getD i none = some v := by
  intro items
  induction items with
  | nil => intro st i _ hmem _; exact absurd hmem (by simp)
  | cons it rest ih =>
      intro st i hlen hmem hval
      rw [record_batch_failure]
      by_cases hrest : i ∈ rest.map BatchItem.idx
      · refine ih _ i ?_ hrest (fun it' hit' => hval it' (List.mem_cons_of_mem _ hit'))
        simpa [List.length_set] using hlen
      · simp only [List.map_cons, List.mem_cons] at hmem
        have hidx : it.idx = i := by
          rcases hmem with h | h
          · exact h.symm
          · exact absurd h hrest
        rw [record_batch_failure_getD_out m now rest _ i hrest]
        show (st.results.set it.idx
            (some (blank_record m it.idx it.text it.start it.end_ now))).getD i none = some v
        rw [← hidx] at hlen ⊢
        rw [getD_set_self' _ _ _ _ hlen]
        exact congrArg some (hval it (List.mem_cons_self _ _) hidx)

theorem apply_pairs_getD_isSome :
    ∀ (pairs : List (Nat × LineAnnotation)) (st : EngState) (i : Nat),
      i < st.results.length → i ∈ pairs.map Prod.fst →
      ((apply_pairs st pairs).results.getD i none).isSome = true := by
  intro pairs
  induction pairs with
  | nil => intro st i _ hmem; exact absurd hmem (by simp)
  | cons p rest ih =>
      intro st i hlen hmem
      rw [apply_pairs]
      by_cases hrest : i ∈ rest.map Prod.fst
      · refine ih _ i ?_ hrest
        simpa [List.length_set] using hlen
      · simp only [List.map_cons, List.mem_cons] at hmem
        have hidx : p.1 = i := by
          rcases hmem with h | h
          · exact h.symm
          · exact absurd h hrest
        rw [apply_pairs_getD_out rest _ i hrest]
        rw [← hidx] at hlen ⊢
        rw [getD_set_self' _ _ _ _ hlen]
        rfl

theorem record_batch_failure_getD_isSome (m : String) (now : PyNum) :
    ∀ (items : List BatchItem) (st : EngState) (i : Nat),
      i < st.results.length → i ∈ items.map BatchItem.idx →
      ((record_batch_failure m now st items).results.getD i none).isSome = true := by
  intro items
  induction items with
  | nil => intro st i _ hmem; exact absurd hmem (by simp)
  | cons it rest ih =>
      intro st i hlen hmem
      rw [record_batch_failure]
      by_cases hrest : i ∈ rest.map BatchItem.idx
      · refine ih _ i ?_ hrest
        simpa [List.length_set] using hlen
      · simp only [List.map_cons, List.mem_cons] at hmem
        have hidx : it.idx = i := by
          rcases hmem with h | h
          · exact h.symm
          · exact absurd h hrest
        rw [record_batch_failure_getD_out m now rest _ i hrest]
        rw [← hidx] at hlen ⊢
        rw [getD_set_self' _ _ _ _ hlen]
        rfl

/-! Completed-index bookkeeping of the result loops. -/

theorem apply_pairs_completed :
    ∀ (pairs : List (Nat × LineAnnotation)) (st : EngState) (j : Nat),
      j ∈ (apply_pairs st pairs).completed_indices
        ↔ j ∈ st.completed_indices ∨ j ∈ pairs.map Prod.fst := by
  intro pairs
  induction pairs with
  | nil => intro st j; simp [apply_pairs]
  | cons p rest ih =>
      intro st j
      rw [apply_pairs, ih]
      simp only [mem_setInsert, List.map_cons, List.mem_cons]
      tauto

theorem record_batch_failure_completed (m : String) (now : PyNum) :
    ∀ (items : List BatchItem) (st : EngState) (j : Nat),
      j ∈ (record_batch_failure m now st items).completed_indices
        ↔ j ∈ st.completed_indices ∨ j ∈ items.map BatchItem.idx := by
  intro items
  induction items with
  | nil => intro st j; simp [record_batch_failure]
  | cons it rest ih =>
      intro st j
      rw [record_batch_failure, ih]
      simp only [mem_setInsert, List.map_cons, List.mem_cons]
      tauto

theorem process_units_batch_completed (ctx : SaveCtx) (bs : BatchSettings)
    (oracle : Oracle) (inject : Nat → Option String) (m mn : String) :
    ∀ (units : List (List BatchItem)) (u : Nat) (st : EngState) (j : Nat),
      j ∈ (process_units_batch ctx bs oracle inject false false m mn
            units u st).completed_indices
        ↔ j ∈ st.completed_indices ∨ ∃ b ∈ units, j ∈ b.map BatchItem.idx := by
  intro units
  induction units with
  | nil => intro u st j; simp [process_units_batch]
  | cons batch rest ih =>
      intro u st j
      have hcp : check_pause ctx false false st = (st, false) := rfl
      rw [process_units_batch]
      simp only [Bool.false_eq_true, if_false, hcp]
      cases hinj : inject u with
      | some e =>
          simp only []
          rw [ih, record_batch_failure_completed]
          constructor
          · rintro ((h | h) | ⟨b, hb, hj⟩)
            · exact Or.inl h
            · exact Or.inr ⟨batch, List.mem_cons_self _ _, h⟩
            · exact Or.inr ⟨b, List.mem_cons_of_mem _ hb, hj⟩
          · rintro (h | ⟨b, hb, hj⟩)
            · exact Or.inl (Or.inl h)
            · rcases List.mem_cons.mp hb with rfl | hb'
              · exact Or.inl (Or.inr hj)
              · exact Or.inr ⟨b, hb', hj⟩
      | none =>
          simp only []
          cases hab : (annotate_batch bs oracle st.counter batch
              mn m ctx.subtitle_path ctx.now).1 with
          | error err =>
              simp only []
              rw [ih, record_batch_failure_completed]
              constructor
              · rintro ((h | h) | ⟨b, hb, hj⟩)
                · exact Or.inl h
                · exact Or.inr ⟨batch, List.mem_cons_self _ _, h⟩
                · exact Or.inr ⟨b, List.mem_cons_of_mem _ hb, hj⟩
              · rintro (h | ⟨b, hb, hj⟩)
                · exact Or.inl (Or.inl h)
                · rcases List.mem_cons.mp hb with rfl | hb'
                  · exact Or.inl (Or.inr hj)
                  · exact Or.inr ⟨b, hb', hj⟩
          | ok pairs =>
              simp only []
              rw [ih, maybe_save_completed, apply_pairs_completed,
                annotate_batch_fst bs oracle st.counter batch
                  mn m ctx.subtitle_path ctx.now pairs hab]
              constructor
              · rintro ((h | h) | ⟨b, hb, hj⟩)
                · exact Or.inl h
                · exact Or.inr ⟨batch, List.mem_cons_self _ _, h⟩
                · exact Or.inr ⟨b, List.mem_cons_of_mem _ hb, hj⟩
              · rintro (h | ⟨b, hb, hj⟩)
                · exact Or.inl (Or.inl h)
                · rcases List.mem_cons.mp hb with rfl | hb'
                  · exact Or.inl (Or.inr hj)
                  · exact Or.inr ⟨b, hb', hj⟩

theorem process_lines_completed (ctx : SaveCtx) (bs : BatchSettings)
    (oracle : Oracle) (inject : Nat → Option String) (m : String)
    (lines : List SrtLine) (ws : Nat) :
    ∀ (idxs : List Nat) (u : Nat) (st : EngState) (j : Nat),
      j ∈ (process_lines ctx bs oracle inject false false m lines ws
            idxs u st).completed_indices
        ↔ j ∈ st.completed_indices ∨ j ∈ idxs := by
  intro idxs
  induction idxs with
  | nil => intro u st j; simp [process_lines]
  | cons k rest ih =>
      intro u st j
      have hcp : check_pause ctx false false st = (st, false) := rfl
      rw [process_lines]
      simp only [Bool.false_eq_true, if_false, hcp]
      cases hinj : inject u with
      | some e =>
          simp only []
          rw [ih]
          simp only [mem_setInsert, List.mem_cons]
          tauto
      | none =>
          simp only []
          rw [ih, maybe_save_completed]
          simp only [mem_setInsert, List.mem_cons]
          tauto

/-! Coverage: a line inside a processed unit always ends with a record,
whichever way the unit finishes (worker result or injected failure). -/

theorem process_units_batch_cover (ctx : SaveCtx) (bs : BatchSettings)
    (oracle : Oracle) (inject : Nat → Option String) (m mn : String) :
    ∀ (units : List (List BatchItem)) (u : Nat) (st : EngState) (i : Nat),
      i < st.results.length →
      (∃ b ∈ units, i ∈ b.map BatchItem.idx) →
      ((process_units_batch ctx bs oracle inject false false m mn
          units u st).results.getD i none).isSome = true := by
  intro units
  induction units with
  | nil =>
      rintro u st i _ ⟨b, hb, -⟩
      exact absurd hb (List.not_mem_nil b)
  | cons batch rest ih =>
      rintro u st i hlen ⟨b, hb, hib⟩
      have hcp : check_pause ctx false false st = (st, false) := rfl
      rw [process_units_batch]
      simp only [Bool.false_eq_true, if_false, hcp]
      by_cases hrest : ∃ b' ∈ rest, i ∈ b'.map BatchItem.idx
      · cases hinj : inject u with
        | some e =>
            simp only []
            refine ih _ _ i ?_ hrest
            rw [record_batch_failure_results_length]
            exact hlen
        | none =>
            simp only []
            cases hab : (annotate_batch bs oracle st.counter batch
                mn m ctx.subtitle_path ctx.now).1 with
            | error err =>
                simp only []
                refine ih _ _ i ?_ hrest
                rw [record_batch_failure_results_length]
                exact hlen
            | ok pairs =>
                simp only []
                refine ih _ _ i ?_ hrest
                rw [maybe_save_results, apply_pairs_results_length]
                exact hlen
      · have hibatch : i ∈ batch.map BatchItem.idx := by
          rcases List.mem_cons.mp hb with rfl | hb'
          · exact hib
          · exact absurd ⟨b, hb', hib⟩ hrest
        have hout : ∀ b' ∈ rest, i ∉ b'.map BatchItem.idx :=
          fun b' hb' hib' => hrest ⟨b', hb', hib'⟩
        cases hinj : inject u with
        | some e =>
            simp only []
            rw [process_units_batch_getD_out ctx bs oracle inject false false m mn
              rest _ _ i hout]
            exact record_batch_failure_getD_isSome m ctx.now batch st i hlen hibatch
        | none =>
            simp only []
            cases hab : (annotate_batch bs oracle st.counter batch
                mn m ctx.subtitle_path ctx.now).1 with
            | error err =>
                simp only []
                rw [process_units_batch_getD_out ctx bs oracle inject false false m mn
                  rest _ _ i hout]
                exact record_batch_failure_getD_isSome m ctx.now batch _ i hlen hibatch
            | ok pairs =>
                simp only []
                rw [process_units_batch_getD_out ctx bs oracle inject false false m mn
                  rest _ _ i hout, maybe_save_results]
                refine apply_pairs_getD_isSome _ _ i hlen ?_
                rw [annotate_batch_fst bs oracle st.counter batch mn m ctx.subtitle_path
                  ctx.now pairs hab]
                exact hibatch

theorem process_lines_cover (ctx : SaveCtx) (bs : BatchSettings)
    (oracle : Oracle) (inject : Nat → Option String) (m : String)
    (lines : List SrtLine) (ws : Nat) :
    ∀ (idxs : List Nat) (u : Nat) (st : EngState) (i : Nat),
      i < st.results.length → i ∈ idxs →
      ((process_lines ctx bs oracle inject false false m lines ws
          idxs u st).results.getD i none).isSome = true := by
  intro idxs
  induction idxs with
  | nil => intro u st i _ hmem; exact absurd hmem (List.not_mem_nil i)
  | cons k rest ih =>
      intro u st i hlen hmem
      have hcp : check_pause ctx false false st = (st, false) := rfl
      rw [process_lines]
      simp only [Bool.false_eq_true, if_false, hcp]
      by_cases hrest : i ∈ rest
      · cases hinj : inject u with
        | some e =>
            simp only []
            refine ih _ _ i ?_ hrest
            simpa [List.length_set] using hlen
        | none =>
            simp only []
            refine ih _ _ i ?_ hrest
            rw [maybe_save_results]
            simpa [List.length_set] using hlen
      · have hik : i = k := by
          rcases List.mem_cons.mp hmem with h | h
          · exact h
          · exact absurd h hrest
        subst hik
        cases hinj : inject u with
        | some e =>
            simp only []
            rw [process_lines_getD_out ctx bs oracle inject false false m lines ws
              rest _ _ i hrest]
            rw [getD_set_self' _ _ _ _ hlen]
            rfl
        | none =>
            simp only []
            rw [process_lines_getD_out ctx bs oracle inject false false m lines ws
              rest _ _ i hrest, maybe_save_results]
            rw [getD_set_self' _ _ _ _ hlen]
            rfl

/-! Every not-yet-completed line lands in one built batch. -/

theorem mk_batch_mem_idx (lines : List SrtLine) (comp : List Nat) (ws bsz s i : Nat)
    (h1 : s ≤ i) (h2 : i < s + bsz) (h3 : i < lines.length)
    (hc : comp.contains i = false) :
    i ∈ (mk_batch lines comp ws bsz s).map BatchItem.idx := by
  rw [mk_batch_idx_map]
  refine List.mem_filter.mpr ⟨?_, ?_⟩
  · exact List.mem_range.mpr (lt_min h3 h2)
  · have hnc : i ∉ comp := by simpa using hc
    simp [h1, hnc]

theorem build_batches_cover (lines : List SrtLine) (comp : List Nat) (ws bsz : Nat)
    (hb : 0 < bsz) (i : Nat) (hi : i < lines.length) (hc : comp.contains i = false) :
    ∃ b ∈ build_batches lines comp ws bsz false, i ∈ b.map BatchItem.idx := by
  refine ⟨mk_batch lines comp ws bsz ((i / bsz) * bsz), ?_, ?_⟩
  · rw [build_batches]
    simp only [Bool.false_eq_true, if_false]
    refine List.mem_filter.mpr ⟨?_, ?_⟩
    · refine List.mem_map.mpr ⟨i / bsz, ?_, rfl⟩
      refine List.mem_range.mpr ?_
      rw [Nat.div_lt_iff_lt_mul hb]
      have hmod := Nat.div_add_mod (lines.length + bsz - 1) bsz
      have hmlt := Nat.mod_lt (lines.length + bsz - 1) hb
      have hcomm : (lines.length + bsz - 1) / bsz * bsz
          = bsz * ((lines.length + bsz - 1) / bsz) := Nat.mul_comm _ _
      omega
    · have hmem := mk_batch_mem_idx lines comp ws bsz ((i / bsz) * bsz) i
        (Nat.div_mul_le_self i bsz)
        (by
          have h₁ := Nat.div_add_mod i bsz
          have h₂ := Nat.mod_lt i hb
          have h₃ : i / bsz * bsz = bsz * (i / bsz) := Nat.mul_comm _ _
          omega)
        hi hc
      rcases List.mem_map.mp hmem with ⟨it, hit, -⟩
      cases hmb : mk_batch lines comp ws bsz ((i / bsz) * bsz) with
      | nil => rw [hmb] at hit; exact absurd hit (List.not_mem_nil it)
      | cons a t => simp
  · exact mk_batch_mem_idx lines comp ws bsz ((i / bsz) * bsz) i
      (Nat.div_mul_le_self i bsz)
      (by
        have h₁ := Nat.div_add_mod i bsz
        have h₂ := Nat.mod_lt i hb
        have h₃ : i / bsz * bsz = bsz * (i / bsz) := Nat.mul_comm _ _
        omega)
      hi hc

/-! The finale on a fully covered state: final save, checkpoint deletion. -/

theorem filterMap_id_length_of_getD :
    ∀ (l : List (Option LineAnnotation)),
      (∀ i, i < l.length → (l.getD i none).isSome = true) →
      (l.filterMap id).length = l.length := by
  intro l
  induction l with
  | nil => intro _; rfl
  | cons x xs ih =>
      intro h
      have hx : x.isSome = true := h 0 (by simp)
      cases x with
      | none => simp at hx
      | some a =>
          show (a :: xs.filterMap id).length = (some a :: xs).length
          rw [List.length_cons, List.length_cons, ih]
          intro i hi
          have := h (i + 1) (by simpa using Nat.succ_lt_succ hi)
          simpa [List.getD] using this

theorem engine_finale_complete (ctx : SaveCtx) (subs : List (List Nat)) (st : EngState)
    (hlen : st.results.length = ctx.total)
    (hcov : ∀ i, i < ctx.total → (st.results.getD i none).isSome = true) :
    (engine_finale ctx false false subs st).records = st.results.filterMap id ∧
    (engine_finale ctx false false subs st).checkpoint_deleted = true ∧
    (engine_finale ctx false false subs st).raised = none ∧
    (engine_finale ctx false false subs st).completed_indices = st.completed_indices ∧
    (engine_finale ctx false false subs st).saves
      = st.saves ++ [incremental_save ctx ((st.results.filterMap id).map some)] := by
  have hflen : (st.results.filterMap id).length = st.results.length :=
    filterMap_id_length_of_getD st.results (fun i hi => hcov i (hlen ▸ hi))
  have hns : (incremental_save ctx ((st.results.filterMap id).map some)).checkpoint ≠ none := by
    rw [incremental_save]
    rw [if_neg (by rw [List.length_map, hflen, hlen]; omega)]
    simp
  rw [engine_finale]
  simp only [Bool.false_eq_true, if_false]
  cases hchk : (incremental_save ctx ((st.results.filterMap id).map some)).checkpoint with
  | none => exact absurd hchk hns
  | some cpt => simp [hchk]

/-! Phase-level length, coverage and completed-index lemmas. -/

theorem engine_phase_batch_results_length (ctx : SaveCtx) (bs : BatchSettings)
    (oracle : Oracle) (inject : Nat → Option String) (p c : Bool) (m mn : String)
    (lines : List SrtLine) (ws bsz : Nat) (comp : List Nat) (st₀ : EngState) :
    (engine_phase_batch ctx bs oracle inject p c m mn lines ws bsz comp
        st₀).2.results.length = st₀.results.length := by
  simp only [engine_phase_batch]
  rw [process_units_batch_results_length, submit_units_results]

theorem engine_phase_single_results_length (ctx : SaveCtx) (bs : BatchSettings)
    (oracle : Oracle) (inject : Nat → Option String) (p c : Bool) (m : String)
    (lines : List SrtLine) (ws : Nat) (comp : List Nat) (st₀ : EngState) :
    (engine_phase_single ctx bs oracle inject p c m lines ws comp
        st₀).2.results.length = st₀.results.length := by
  simp only [engine_phase_single]
  rw [process_lines_results_length, submit_lines_results]

theorem engine_phase_batch_cover (ctx : SaveCtx) (bs : BatchSettings)
    (oracle : Oracle) (inject : Nat → Option String) (m mn : String)
    (lines : List SrtLine) (ws bsz : Nat) (comp : List Nat) (st₀ : EngState) (i : Nat)
    (hlen : i < st₀.results.length) (hbsz : 0 < bsz) (hi : i < lines.length)
    (hc : comp.contains i = false) :
    ((engine_phase_batch ctx bs oracle inject false false m mn lines ws bsz comp
        st₀).2.results.getD i none).isSome = true := by
  simp only [engine_phase_batch]
  rw [submit_units_all]
  exact process_units_batch_cover ctx bs oracle inject m mn _ 0 st₀ i hlen
    (build_batches_cover lines comp ws bsz hbsz i hi hc)

theorem engine_phase_single_cover (ctx : SaveCtx) (bs : BatchSettings)
    (oracle : Oracle) (inject : Nat → Option String) (m : String)
    (lines : List SrtLine) (ws : Nat) (comp : List Nat) (st₀ : EngState) (i : Nat)
    (hlen : i < st₀.results.length) (hi : i < lines.length)
    (hc : comp.contains i = false) :
    ((engine_phase_single ctx bs oracle inject false false m lines ws comp
        st₀).2.results.getD i none).isSome = true := by
  simp only [engine_phase_single]
  rw [submit_lines_all]
  refine process_lines_cover ctx bs oracle inject m lines ws _ 0 st₀ i hlen ?_
  have hnc : i ∉ comp := by simpa using hc
  exact List.mem_filter.mpr ⟨List.mem_range.mpr hi, by simp [hnc]⟩

theorem engine_phase_batch_completed (ctx : SaveCtx) (bs : BatchSettings)
    (oracle : Oracle) (inject : Nat → Option String) (m mn : String)
    (lines : List SrtLine) (ws bsz : Nat) (comp : List Nat) (st₀ : EngState) (j : Nat) :
    j ∈ (engine_phase_batch ctx bs oracle inject false false m mn lines ws bsz comp
        st₀).2.completed_indices
      ↔ j ∈ st₀.completed_indices
        ∨ ∃ b ∈ build_batches lines comp ws bsz false, j ∈ b.map BatchItem.idx := by
  simp only [engine_phase_batch]
  rw [submit_units_all]
  exact process_units_batch_completed ctx bs oracle inject m mn _ 0 st₀ j

theorem engine_phase_single_completed (ctx : SaveCtx) (bs : BatchSettings)
    (oracle : Oracle) (inject : Nat → Option String) (m : String)
    (lines : List SrtLine) (ws : Nat) (comp : List Nat) (st₀ : EngState) (j : Nat) :
    j ∈ (engine_phase_single ctx bs oracle inject false false m lines ws comp
        st₀).2.completed_indices
      ↔ j ∈ st₀.completed_indices
        ∨ j ∈ (List.range lines.length).filter (fun i => !comp.contains i) := by
  simp only [engine_phase_single]
  rw [submit_lines_all]
  exact process_lines_completed ctx bs oracle inject m lines ws _ 0 st₀ j

/-- C2 amended: a fresh (non-resumed) run over a non-empty line source
with neither signal set completes every index, returns one record per
line, performs a final save and deletes the checkpoint. -/
theorem C2_fresh_completion (bs : BatchSettings) (oracle : Oracle)
    (inject : Nat → Option String) (lines : List SrtLine)
    (mn mid sp lp : String) (ws bsz si : Nat) (now : PyNum)
    (hne : lines ≠ []) :
    (∀ j, j ∈ (annotate_subtitle_file bs oracle inject lines mn mid sp lp ws bsz si
        false false false none OutputLoad.absent now).completed_indices
      ↔ j < lines.length) ∧
    (annotate_subtitle_file bs oracle inject lines mn mid sp lp ws bsz si
        false false false none OutputLoad.absent now).records.length = lines.length ∧
    (annotate_subtitle_file bs oracle inject lines mn mid sp lp ws bsz si
        false false false none OutputLoad.absent now).checkpoint_deleted = true ∧
    (annotate_subtitle_file bs oracle inject lines mn mid sp lp ws bsz si
        false false false none OutputLoad.absent now).raised = none ∧
    (annotate_subtitle_file bs oracle inject lines mn mid sp lp ws bsz si
        false false false none OutputLoad.absent now).saves ≠ [] := by
  have hlef : lines.isEmpty = false := by
    cases lines with
    | nil => exact absurd rfl hne
    | cons a t => rfl
  have hpos : 0 < lines.length := List.length_pos.mpr hne
  have hres : engine_resume_init lines.length false none OutputLoad.absent
      = ([], List.replicate lines.length none) := rfl
  have hrem : ¬((lines.length : Int) - ((0 : Nat) : Int) ≤ 0) := by
    simp
    exact hne
  rw [annotate_subtitle_file, hlef]
  simp only [Bool.false_eq_true, if_false, hres, List.length_nil, Nat.cast_zero]
  rw [if_neg (by simpa using hrem)]
  by_cases hub : resolve_batch_size bsz lines.length > 1
  · rw [if_pos hub]
    have hbsz : 0 < resolve_batch_size bsz lines.length := by omega
    set ctx : SaveCtx :=
      ⟨mid, mn, sp, lp, lines.length, resolve_batch_size bsz lines.length, si, now⟩ with hctx
    set st₀ : EngState :=
      ⟨List.replicate lines.length none, 0, [], 0, [], 0⟩ with hst₀
    set aft := engine_phase_batch ctx bs oracle inject false false
        (if (mid != "") = true then mid else mn) mn lines ws
        (resolve_batch_size bsz lines.length) [] st₀ with haft
    have hlen : aft.2.results.length = lines.length := by
      rw [haft, engine_phase_batch_results_length, hst₀]
      exact List.length_replicate _ _
    have hcov : ∀ i, i < lines.length → (aft.2.results.getD i none).isSome = true := by
      intro i hi
      rw [haft]
      refine engine_phase_batch_cover ctx bs oracle inject _ mn lines ws _ [] st₀ i ?_ hbsz hi rfl
      rw [hst₀]
      simpa [List.length_replicate] using hi
    obtain ⟨hrec, hdel, hrai, hcomp, hsav⟩ := engine_finale_complete ctx aft.1 aft.2 hlen hcov
    refine ⟨?_, ?_, hdel, hrai, ?_⟩
    · intro j
      rw [hcomp, haft, engine_phase_batch_completed]
      constructor
      · rintro (h | ⟨b, hb, hj⟩)
        · rw [hst₀] at h
          exact absurd h (List.not_mem_nil j)
        · exact (build_batches_exclude lines [] ws _ false b hb j hj).2
      · intro hj
        exact Or.inr (build_batches_cover lines [] ws _ hbsz j hj rfl)
    · rw [hrec, filterMap_id_length_of_getD _ (fun i hi => hcov i (by rwa [hlen] at hi)), hlen]
    · rw [hsav]
      simp
  · rw [if_neg hub]
    set ctx : SaveCtx :=
      ⟨mid, mn, sp, lp, lines.length, resolve_batch_size bsz lines.length, si, now⟩ with hctx
    set st₀ : EngState :=
      ⟨List.replicate lines.length none, 0, [], 0, [], 0⟩ with hst₀
    set aft := engine_phase_single ctx bs oracle inject false false
        (if (mid != "") = true then mid else mn) lines ws [] st₀ with haft
    have hlen : aft.2.results.length = lines.length := by
      rw [haft, engine_phase_single_results_length, hst₀]
      exact List.length_replicate _ _
    have hcov : ∀ i, i < lines.length → (aft.2.results.getD i none).isSome = true := by
      intro i hi
      rw [haft]
      refine engine_phase_single_cover ctx bs oracle inject _ lines ws [] st₀ i ?_ hi rfl
      rw [hst₀]
      simpa [List.length_replicate] using hi
    obtain ⟨hrec, hdel, hrai, hcomp, hsav⟩ := engine_finale_complete ctx aft.1 aft.2 hlen hcov
    refine ⟨?_, ?_, hdel, hrai, ?_⟩
    · intro j
      rw [hcomp, haft, engine_phase_single_completed, hst₀]
      simp [List.mem_filter, List.mem_range]
    · rw [hrec, filterMap_id_length_of_getD _ (fun i hi => hcov i (by rwa [hlen] at hi)), hlen]
    · rw [hsav]
      simp

/-! The value recorded for a line whose unit future raises: the
default-constructed blank annotation. -/

theorem process_units_allfail_getD (ctx : SaveCtx) (bs : BatchSettings)
    (oracle : Oracle) (m mn e : String) (v : LineAnnotation) :
    ∀ (units : List (List BatchItem)) (u : Nat) (st : EngState) (i : Nat),
      i < st.results.length →
      (∃ b ∈ units, i ∈ b.map BatchItem.idx) →
      (∀ b ∈ units, ∀ it ∈ b, it.idx = i →
          blank_record m it.idx it.text it.start it.end_ ctx.now = v) →
      (process_units_batch ctx bs oracle (fun _ => some e) false false m mn
          units u st).results.getD i none = some v := by
  intro units
  induction units with
  | nil => rintro u st i _ ⟨b, hb, -⟩ _; exact absurd hb (List.not_mem_nil b)
  | cons batch rest ih =>
      rintro u st i hlen ⟨b, hb, hib⟩ hval
      have hcp : check_pause ctx false false st = (st, false) := rfl
      rw [process_units_batch]
      simp only [Bool.false_eq_true, if_false, hcp]
      by_cases hrest : ∃ b' ∈ rest, i ∈ b'.map BatchItem.idx
      · refine ih _ _ i ?_ hrest (fun b' hb' => hval b' (List.mem_cons_of_mem _ hb'))
        rw [record_batch_failure_results_length]
        exact hlen
      · have hibatch : i ∈ batch.map BatchItem.idx := by
          rcases List.mem_cons.mp hb with rfl | hb'
          · exact hib
          · exact absurd ⟨b, hb', hib⟩ hrest
        have hout : ∀ b' ∈ rest, i ∉ b'.map BatchItem.idx :=
          fun b' hb' hib' => hrest ⟨b', hb', hib'⟩
        rw [process_units_batch_getD_out ctx bs oracle (fun _ => some e) false false m mn
          rest _ _ i hout]
        exact record_batch_failure_getD_mem m ctx.now v batch st i hlen hibatch
          (fun it hit => hval batch (List.mem_cons_self _ _) it hit)

theorem process_lines_allfail_getD (ctx : SaveCtx) (bs : BatchSettings)
    (oracle : Oracle) (m e : String) (lines : List SrtLine) (ws : Nat) :
    ∀ (idxs : List Nat) (u : Nat) (st : EngState) (i : Nat),
      i < st.results.length → i ∈ idxs →
      (process_lines ctx bs oracle (fun _ => some e) false false m lines ws
          idxs u st).results.getD i none
        = some (blank_record m i (lines.getD i ⟨"", 0, 0⟩).text
            (lines.getD i ⟨"", 0, 0⟩).start (lines.getD i ⟨"", 0, 0⟩).end_ ctx.now) := by
  intro idxs
  induction idxs with
  | nil => intro u st i _ hmem; exact absurd hmem (List.not_mem_nil i)
  | cons k rest ih =>
      intro u st i hlen hmem
      have hcp : check_pause ctx false false st = (st, false) := rfl
      rw [process_lines]
      simp only [Bool.false_eq_true, if_false, hcp]
      by_cases hrest : i ∈ rest
      · refine ih _ _ i ?_ hrest
        simpa [List.length_set] using hlen
      · have hik : i = k := by
          rcases List.mem_cons.mp hmem with h | h
          · exact h
          · exact absurd h hrest
        subst hik
        rw [process_lines_getD_out ctx bs oracle (fun _ => some e) false false m lines ws
          rest _ _ i hrest]
        rw [getD_set_self' _ _ _ _ hlen]

theorem build_batches_item_fields (lines : List SrtLine) (comp : List Nat) (ws bsz : Nat)
    (c : Bool) (b : List BatchItem) (hb : b ∈ build_batches lines comp ws bsz c)
    (it : BatchItem) (hit : it ∈ b) :
    it.text = (lines.getD it.idx ⟨"", 0, 0⟩).text ∧
    it.start = (lines.getD it.idx ⟨"", 0, 0⟩).start ∧
    it.end_ = (lines.getD it.idx ⟨"", 0, 0⟩).end_ := by
  rw [build_batches] at hb
  by_cases hc : c = true
  · rw [if_pos hc] at hb
    exact absurd hb (List.not_mem_nil b)
  · rw [if_neg hc] at hb
    obtain ⟨hbm, -⟩ := List.mem_filter.mp hb
    obtain ⟨blk, -, rfl⟩ := List.mem_map.mp hbm
    rw [mk_batch] at hit
    obtain ⟨j, -, rfl⟩ := List.mem_map.mp hit
    exact ⟨rfl, rfl, rfl⟩

theorem engine_phase_batch_allfail_getD (ctx : SaveCtx) (bs : BatchSettings)
    (oracle : Oracle) (m mn e : String) (lines : List SrtLine) (ws bsz : Nat)
    (st₀ : EngState) (i : Nat)
    (hlen : i < st₀.results.length) (hbsz : 0 < bsz) (hi : i < lines.length) :
    (engine_phase_batch ctx bs oracle (fun _ => some e) false false m mn lines ws bsz []
        st₀).2.results.getD i none
      = some (blank_record m i (lines.getD i ⟨"", 0, 0⟩).text
          (lines.getD i ⟨"", 0, 0⟩).start (lines.getD i ⟨"", 0, 0⟩).end_ ctx.now) := by
  simp only [engine_phase_batch]
  rw [submit_units_all]
  refine process_units_allfail_getD ctx bs oracle m mn e _ _ 0 st₀ i hlen
    (build_batches_cover lines [] ws bsz hbsz i hi rfl) ?_
  intro b hb it hit hidx
  obtain ⟨ht, hs, hen⟩ := build_batches_item_fields lines [] ws bsz false b hb it hit
  rw [ht, hs, hen, hidx]

theorem engine_phase_single_allfail_getD (ctx : SaveCtx) (bs : BatchSettings)
    (oracle : Oracle) (m e : String) (lines : List SrtLine) (ws : Nat)
    (st₀ : EngState) (i : Nat)
    (hlen : i < st₀.results.length) (hi : i < lines.length) :
    (engine_phase_single ctx bs oracle (fun _ => some e) false false m lines ws []
        st₀).2.results.getD i none
      = some (blank_record m i (lines.getD i ⟨"", 0, 0⟩).text
          (lines.getD i ⟨"", 0, 0⟩).start (lines.getD i ⟨"", 0, 0⟩).end_ ctx.now) := by
  simp only [engine_phase_single]
  rw [submit_lines_all]
  refine process_lines_allfail_getD ctx bs oracle m e lines ws _ 0 st₀ i hlen ?_
  exact List.mem_filter.mpr ⟨List.mem_range.mpr hi, by simp⟩

/-- C2 counterexample: a resumed run whose loaded checkpoint already covers
every line but whose prior output file is missing finishes without either
signal set, yet returns zero records, performs no save and never deletes
the checkpoint. -/
theorem C2_counterexample :
    (annotate_subtitle_file ⟨true, 2⟩ (fun _ => Except.ok "x") (fun _ => none)
      [⟨"甲", 0, 1⟩] "n" "m" "p" "prov" 1 2 1 false false true
      (some ⟨"m", "n", "p", "prov", 1, [0], 1, 0, 2, 1⟩)
      OutputLoad.absent 0).records.length = 0 ∧
    (annotate_subtitle_file ⟨true, 2⟩ (fun _ => Except.ok "x") (fun _ => none)
      [⟨"甲", 0, 1⟩] "n" "m" "p" "prov" 1 2 1 false false true
      (some ⟨"m", "n", "p", "prov", 1, [0], 1, 0, 2, 1⟩)
      OutputLoad.absent 0).checkpoint_deleted = false ∧
    (annotate_subtitle_file ⟨true, 2⟩ (fun _ => Except.ok "x") (fun _ => none)
      [⟨"甲", 0, 1⟩] "n" "m" "p" "prov" 1 2 1 false false true
      (some ⟨"m", "n", "p", "prov", 1, [0], 1, 0, 2, 1⟩)
      OutputLoad.absent 0).raised = none ∧
    (annotate_subtitle_file ⟨true, 2⟩ (fun _ => Except.ok "x") (fun _ => none)
      [⟨"甲", 0, 1⟩] "n" "m" "p" "prov" 1 2 1 false false true
      (some ⟨"m", "n", "p", "prov", 1, [0], 1, 0, 2, 1⟩)
      OutputLoad.absent 0).saves = [] :=
  ⟨rfl, rfl, rfl, rfl⟩

/-- Witness for the amended C2 at a concrete fresh one-line run. -/
theorem C2_amended_witness :
    ([⟨"甲", 0, 1⟩] : List SrtLine) ≠ [] ∧
    ((∀ j, j ∈ (annotate_subtitle_file ⟨true, 0⟩ (fun _ => Except.error "E")
        (fun _ => none) [⟨"甲", 0, 1⟩] "n" "m" "p" "prov" 1 2 1 false false false none
        OutputLoad.absent 0).completed_indices ↔ j < ([⟨"甲", 0, 1⟩] : List SrtLine).length) ∧
      (annotate_subtitle_file ⟨true, 0⟩ (fun _ => Except.error "E")
        (fun _ => none) [⟨"甲", 0, 1⟩] "n" "m" "p" "prov" 1 2 1 false false false none
        OutputLoad.absent 0).records.length = ([⟨"甲", 0, 1⟩] : List SrtLine).length ∧
      (annotate_subtitle_file ⟨true, 0⟩ (fun _ => Except.error "E")
        (fun _ => none) [⟨"甲", 0, 1⟩] "n" "m" "p" "prov" 1 2 1 false false false none
        OutputLoad.absent 0).checkpoint_deleted = true ∧
      (annotate_subtitle_file ⟨true, 0⟩ (fun _ => Except.error "E")
        (fun _ => none) [⟨"甲", 0, 1⟩] "n" "m" "p" "prov" 1 2 1 false false false none
        OutputLoad.absent 0).raised = none ∧
      (annotate_subtitle_file ⟨true, 0⟩ (fun _ => Except.error "E")
        (fun _ => none) [⟨"甲", 0, 1⟩] "n" "m" "p" "prov" 1 2 1 false false false none
        OutputLoad.absent 0).saves ≠ []) :=
  ⟨List.cons_ne_nil _ _,
    C2_fresh_completion ⟨true, 0⟩ (fun _ => Except.error "E") (fun _ => none)
      [⟨"甲", 0, 1⟩] "n" "m" "p" "prov" 1 2 1 0 (List.cons_ne_nil _ _)⟩

/-- C7 amended: with a results list of the engine's length, one incremental
save always writes a checkpoint whose completed indices are exactly the
in-range indices holding a record; the output file is written iff at least
one record is completed, and then holds exactly the completed records — so
a save with nothing completed writes the checkpoint without an output
file. -/
theorem C7_save_invariants (ctx : SaveCtx) (results : List (Option LineAnnotation))
    (hlen : results.length = ctx.total) :
    ∃ cpt, (incremental_save ctx results).checkpoint = some cpt ∧
      (∀ j ∈ cpt.completed_indices, j < ctx.total ∧ (results.getD j none).isSome = true) ∧
      (∀ j, j < ctx.total → (results.getD j none).isSome = true →
        j ∈ cpt.completed_indices) ∧
      ((incremental_save ctx results).output = none ↔ results.filterMap id = []) ∧
      (∀ out, (incremental_save ctx results).output = some out →
        out = (results.filterMap id).map LineAnnotation.to_dict) := by
  have hnl : ¬(results.length < ctx.total) := by omega
  have hiff : (results.filterMap id).isEmpty = true ↔ results.filterMap id = [] := by
    cases results.filterMap id <;> simp [List.isEmpty]
  rw [incremental_save]
  simp only []
  rw [if_neg hnl]
  refine ⟨_, rfl, ?_, ?_, ?_, ?_⟩
  · intro j hj
    obtain ⟨hr, hs⟩ := List.mem_filter.mp hj
    exact ⟨List.mem_range.mp hr, hs⟩
  · intro j hjt hjs
    exact List.mem_filter.mpr ⟨List.mem_range.mpr hjt, hjs⟩
  · by_cases he : (results.filterMap id).isEmpty
    · rw [if_pos he]
      simp [hiff.mp he]
    · rw [if_neg he]
      constructor
      · intro h
        exact absurd h (by simp)
      · intro h
        exact absurd (hiff.mpr h) he
  · intro out hout
    by_cases he : (results.filterMap id).isEmpty
    · rw [if_pos he] at hout
      exact absurd hout (by simp)
    · rw [if_neg he] at hout
      exact (Option.some.inj hout).symm

/-- C7 counterexample: the very first save of a paused fresh run writes a
checkpoint but no output file — checkpoint and output are not written
together in every save. -/
theorem C7_counterexample :
    ((annotate_subtitle_file ⟨true, 1⟩ (fun _ => Except.error "E") (fun _ => none)
        [⟨"甲", 0, 1⟩] "n" "m" "p" "prov" 1 2 1 false true false none
        OutputLoad.absent 0).saves.getD 0 ⟨none, none⟩).output = none ∧
    (((annotate_subtitle_file ⟨true, 1⟩ (fun _ => Except.error "E") (fun _ => none)
        [⟨"甲", 0, 1⟩] "n" "m" "p" "prov" 1 2 1 false true false none
        OutputLoad.absent 0).saves.getD 0 ⟨none, none⟩).checkpoint).isSome = true :=
  ⟨rfl, rfl⟩

/-- Witness for the amended C7 at a concrete one-record results list. -/
theorem C7_witness :
    ([some (blank_record "m" 0 "t" 0 1 0)] : List (Option LineAnnotation)).length
      = (⟨"m", "n", "p", "pr", 1, 2, 10, 0⟩ : SaveCtx).total ∧
    (∃ cpt, (incremental_save ⟨"m", "n", "p", "pr", 1, 2, 10, 0⟩
        [some (blank_record "m" 0 "t" 0 1 0)]).checkpoint = some cpt ∧
      (∀ j ∈ cpt.completed_indices, j < (⟨"m", "n", "p", "pr", 1, 2, 10, 0⟩ : SaveCtx).total ∧
        (([some (blank_record "m" 0 "t" 0 1 0)] : List (Option LineAnnotation)).getD j
          none).isSome = true) ∧
      (∀ j, j < (⟨"m", "n", "p", "pr", 1, 2, 10, 0⟩ : SaveCtx).total →
        (([some (blank_record "m" 0 "t" 0 1 0)] : List (Option LineAnnotation)).getD j
          none).isSome = true → j ∈ cpt.completed_indices) ∧
      ((incremental_save ⟨"m", "n", "p", "pr", 1, 2, 10, 0⟩
          [some (blank_record "m" 0 "t" 0 1 0)]).output = none
        ↔ ([some (blank_record "m" 0 "t" 0 1 0)] : List (Option LineAnnotation)).filterMap id
            = []) ∧
      (∀ out, (incremental_save ⟨"m", "n", "p", "pr", 1, 2, 10, 0⟩
          [some (blank_record "m" 0 "t" 0 1 0)]).output = some out →
        out = (([some (blank_record "m" 0 "t" 0 1 0)] :
            List (Option LineAnnotation)).filterMap id).map LineAnnotation.to_dict)) :=
  ⟨rfl, C7_save_invariants ⟨"m", "n", "p", "pr", 1, 2, 10, 0⟩
    [some (blank_record "m" 0 "t" 0 1 0)] rfl⟩

/-! Positional disjointness of submitted units, and the value recorded
when one particular unit's future raises in an otherwise arbitrary
run. -/

theorem getD_map_idx (l : List (List BatchItem)) (u : Nat) :
    (l.map (fun b => b.map BatchItem.idx)).getD u []
      = (l.getD u []).map BatchItem.idx := by
  by_cases hu : u < l.length
  · rw [List.getD_eq_getElem?_getD, List.getD_eq_getElem?_getD,
      List.getElem?_map, List.getElem?_eq_getElem hu]
    rfl
  · rw [List.getD_eq_default _ _ (by simpa using Nat.le_of_not_lt hu),
      List.getD_eq_default _ _ (Nat.le_of_not_lt hu)]
    rfl

theorem build_batches_pairwise_disjoint (lines : List SrtLine) (comp : List Nat)
    (ws bsz : Nat) (c : Bool) :
    (build_batches lines comp ws bsz c).Pairwise
      (fun b₁ b₂ => ∀ i, i ∈ b₁.map BatchItem.idx → i ∉ b₂.map BatchItem.idx) := by
  rw [build_batches]
  by_cases hc : c = true
  · rw [if_pos hc]
    exact List.Pairwise.nil
  · rw [if_neg hc]
    refine List.Pairwise.filter _ ?_
    rw [List.pairwise_map]
    refine List.Pairwise.imp ?_ (List.pairwise_lt_range _)
    intro a b hab i hia hib
    rw [mk_batch_idx_map] at hia hib
    obtain ⟨hra, hca⟩ := List.mem_filter.mp hia
    obtain ⟨hrb, hcb⟩ := List.mem_filter.mp hib
    simp only [Bool.and_eq_true, decide_eq_true_eq] at hca hcb
    have h1 : i < a * bsz + bsz :=
      lt_of_lt_of_le (List.mem_range.mp hra) (min_le_right _ _)
    have h2 : b * bsz ≤ i := hcb.1
    have h3 : (a + 1) * bsz ≤ b * bsz := Nat.mul_le_mul_right _ hab
    have h4 : a * bsz + bsz = (a + 1) * bsz := by ring
    omega

theorem build_batches_getD_disjoint (lines : List SrtLine) (comp : List Nat)
    (ws bsz : Nat) (c : Bool) (u l : Nat) (hul : u ≠ l) (i : Nat)
    (hiu : i ∈ ((build_batches lines comp ws bsz c).getD u []).map BatchItem.idx) :
    i ∉ ((build_batches lines comp ws bsz c).getD l []).map BatchItem.idx := by
  intro hil
  by_cases hu : u < (build_batches lines comp ws bsz c).length
  · by_cases hl : l < (build_batches lines comp ws bsz c).length
    · have hpair := build_batches_pairwise_disjoint lines comp ws bsz c
      rw [List.pairwise_iff_getElem] at hpair
      rw [List.getD_eq_getElem?_getD, List.getElem?_eq_getElem hu] at hiu
      rw [List.getD_eq_getElem?_getD, List.getElem?_eq_getElem hl] at hil
      rcases Nat.lt_or_ge u l with h | h
      · exact hpair u l hu hl h i hiu hil
      · have hlu : l < u := lt_of_le_of_ne h (fun hh => hul hh.symm)
        exact hpair l u hl hu hlu i hil hiu
    · rw [List.getD_eq_default _ _ (Nat.le_of_not_lt hl)] at hil
      exact absurd hil (by simp)
  · rw [List.getD_eq_default _ _ (Nat.le_of_not_lt hu)] at hiu
    exact absurd hiu (by simp)

theorem process_units_inject_blank (ctx : SaveCtx) (bs : BatchSettings)
    (oracle : Oracle) (inject : Nat → Option String) (m mn : String)
    (e : String) (v : LineAnnotation) :
    ∀ (units : List (List BatchItem)) (u₀ k : Nat) (st : EngState) (i : Nat),
      inject (u₀ + k) = some e →
      i ∈ ((units.getD k []).map BatchItem.idx) →
      (∀ l, k < l → i ∉ ((units.getD l []).map BatchItem.idx)) →
      (∀ it ∈ units.getD k [], it.idx = i →
          blank_record m it.idx it.text it.start it.end_ ctx.now = v) →
      i < st.results.length →
      (process_units_batch ctx bs oracle inject false false m mn units u₀ st).results.getD
          i none = some v := by
  intro units
  induction units with
  | nil =>
      intro u₀ k st i _ hmem _ _ _
      simp at hmem
  | cons batch rest ih =>
      intro u₀ k st i hinj hmem hlater hval hlen
      have hcp : check_pause ctx false false st = (st, false) := rfl
      rw [process_units_batch]
      simp only [Bool.false_eq_true, if_false, hcp]
      cases k with
      | zero =>
          rw [Nat.add_zero] at hinj
          rw [hinj]
          simp only []
          have hout : ∀ b' ∈ rest, i ∉ b'.map BatchItem.idx := by
            intro b' hb' hib'
            obtain ⟨n, hn, rfl⟩ := List.mem_iff_getElem.mp hb'
            refine hlater (n + 1) (Nat.succ_pos n) ?_
            have : (batch :: rest).getD (n + 1) [] = rest.getD n [] := rfl
            rw [this, List.getD_eq_getElem?_getD, List.getElem?_eq_getElem hn]
            exact hib'
          rw [process_units_batch_getD_out ctx bs oracle inject false false m mn
            rest _ _ i hout]
          refine record_batch_failure_getD_mem m ctx.now v batch st i hlen ?_ ?_
          · simpa using hmem
          · intro it hit hidx
            exact hval it (by simpa using hit) hidx
      | succ k' =>
          have hinj' : inject ((u₀ + 1) + k') = some e := by
            rw [show (u₀ + 1) + k' = u₀ + (k' + 1) by omega]
            exact hinj
          have hmem' : i ∈ ((rest.getD k' []).map BatchItem.idx) := hmem
          have hlater' : ∀ l, k' < l → i ∉ ((rest.getD l []).map BatchItem.idx) := by
            intro l hl
            exact hlater (l + 1) (by omega)
          have hval' : ∀ it ∈ rest.getD k' [], it.idx = i →
              blank_record m it.idx it.text it.start it.end_ ctx.now = v := hval
          cases hinj0 : inject u₀ with
          | some e0 =>
              simp only []
              refine ih (u₀ + 1) k' _ i hinj' hmem' hlater' hval' ?_
              rw [record_batch_failure_results_length]
              exact hlen
          | none =>
              simp only []
              cases hab : (annotate_batch bs oracle st.counter batch
                  mn m ctx.subtitle_path ctx.now).1 with
              | error err =>
                  simp only []
                  refine ih (u₀ + 1) k' _ i hinj' hmem' hlater' hval' ?_
                  rw [record_batch_failure_results_length]
                  exact hlen
              | ok pairs =>
                  simp only []
                  refine ih (u₀ + 1) k' _ i hinj' hmem' hlater' hval' ?_
                  rw [maybe_save_results, apply_pairs_results_length]
                  exact hlen

theorem process_lines_inject_blank (ctx : SaveCtx) (bs : BatchSettings)
    (oracle : Oracle) (inject : Nat → Option String) (m : String)
    (lines : List SrtLine) (ws : Nat) (e : String) :
    ∀ (idxs : List Nat) (u₀ k : Nat) (st : EngState) (i : Nat),
      inject (u₀ + k) = some e →
      k < idxs.length →
      idxs.getD k 0 = i →
      (∀ l, k < l → l < idxs.length → idxs.getD l 0 ≠ i) →
      i < st.results.length →
      (process_lines ctx bs oracle inject false false m lines ws idxs u₀ st).results.getD
          i none
        = some (blank_record m i (lines.getD i ⟨"", 0, 0⟩).text
            (lines.getD i ⟨"", 0, 0⟩).start (lines.getD i ⟨"", 0, 0⟩).end_ ctx.now) := by
  intro idxs
  induction idxs with
  | nil =>
      intro u₀ k st i _ hk _ _ _
      simp at hk
  | cons j rest ih =>
      intro u₀ k st i hinj hk hkv hlater hlen
      have hcp : check_pause ctx false false st = (st, false) := rfl
      rw [process_lines]
      simp only [Bool.false_eq_true, if_false, hcp]
      cases k with
      | zero =>
          have hji : j = i := hkv
          subst hji
          rw [Nat.add_zero] at hinj
          rw [hinj]
          simp only []
          have hout : j ∉ rest := by
            intro hmem
            obtain ⟨n, hn, hv⟩ := List.mem_iff_getElem.mp hmem
            refine hlater (n + 1) (Nat.succ_pos n) (by simpa using Nat.succ_lt_succ hn) ?_
            have : (j :: rest).getD (n + 1) 0 = rest.getD n 0 := rfl
            rw [this, List.getD_eq_getElem?_getD, List.getElem?_eq_getElem hn]
            exact hv
          rw [process_lines_getD_out ctx bs oracle inject false false m lines ws
            rest _ _ j hout]
          rw [getD_set_self' _ _ _ _ hlen]
      | succ k' =>
          have hinj' : inject ((u₀ + 1) + k') = some e := by
            rw [show (u₀ + 1) + k' = u₀ + (k' + 1) by omega]
            exact hinj
          have hk' : k' < rest.length := by simpa using hk
          have hkv' : rest.getD k' 0 = i := hkv
          have hlater' : ∀ l, k' < l → l < rest.length → rest.getD l 0 ≠ i := by
            intro l hl hll
            exact hlater (l + 1) (by omega) (by simpa using Nat.succ_lt_succ hll)
          cases hinj0 : inject u₀ with
          | some e0 =>
              simp only []
              refine ih (u₀ + 1) k' _ i hinj' hk' hkv' hlater' ?_
              simpa [List.length_set] using hlen
          | none =>
              simp only []
              refine ih (u₀ + 1) k' _ i hinj' hk' hkv' hlater' ?_
              rw [maybe_save_results]
              simpa [List.length_set] using hlen

theorem engine_phase_batch_inject_blank (ctx : SaveCtx) (bs : BatchSettings)
    (oracle : Oracle) (inject : Nat → Option String) (m mn : String)
    (lines : List SrtLine) (ws bsz : Nat) (comp : List Nat) (st₀ : EngState)
    (u : Nat) (e : String) (hinj : inject u = some e) (i : Nat)
    (hmem : i ∈ (engine_phase_batch ctx bs oracle inject false false m mn lines ws bsz comp
        st₀).1.getD u [])
    (hlen : i < st₀.results.length) :
    (engine_phase_batch ctx bs oracle inject false false m mn lines ws bsz comp
        st₀).2.results.getD i none
      = some (blank_record m i (lines.getD i ⟨"", 0, 0⟩).text
          (lines.getD i ⟨"", 0, 0⟩).start (lines.getD i ⟨"", 0, 0⟩).end_ ctx.now) := by
  simp only [engine_phase_batch] at hmem ⊢
  rw [submit_units_all] at hmem ⊢
  rw [getD_map_idx] at hmem
  have hnev : (build_batches lines comp ws bsz false).getD u [] ≠ [] := by
    intro hh
    rw [hh] at hmem
    exact absurd hmem (by simp)
  have hu : u < (build_batches lines comp ws bsz false).length := by
    by_contra hge
    rw [List.getD_eq_default _ _ (Nat.le_of_not_lt hge)] at hnev
    exact hnev rfl
  have hmemb : (build_batches lines comp ws bsz false).getD u []
      ∈ build_batches lines comp ws bsz false := by
    rw [List.getD_eq_getElem?_getD, List.getElem?_eq_getElem hu]
    exact List.getElem_mem hu
  refine process_units_inject_blank ctx bs oracle inject m mn e _ _ 0 u st₀ i
    (by simpa using hinj) hmem ?_ ?_ hlen
  · intro l hl
    exact build_batches_getD_disjoint lines comp ws bsz false u l (by omega) i hmem
  · intro it hit hidx
    obtain ⟨ht, hs, hen⟩ :=
      build_batches_item_fields lines comp ws bsz false _ hmemb it hit
    rw [ht, hs, hen, hidx]

theorem engine_phase_single_inject_blank (ctx : SaveCtx) (bs : BatchSettings)
    (oracle : Oracle) (inject : Nat → Option String) (m : String)
    (lines : List SrtLine) (ws : Nat) (comp : List Nat) (st₀ : EngState)
    (u : Nat) (e : String) (hinj : inject u = some e) (i : Nat)
    (hmem : i ∈ (engine_phase_single ctx bs oracle inject false false m lines ws comp
        st₀).1.getD u [])
    (hlen : i < st₀.results.length) :
    (engine_phase_single ctx bs oracle inject false false m lines ws comp
        st₀).2.results.getD i none
      = some (blank_record m i (lines.getD i ⟨"", 0, 0⟩).text
          (lines.getD i ⟨"", 0, 0⟩).start (lines.getD i ⟨"", 0, 0⟩).end_ ctx.now) := by
  simp only [engine_phase_single] at hmem ⊢
  rw [submit_lines_all] at hmem ⊢
  simp only [] at hmem ⊢
  have hu : u < ((List.range lines.length).filter (fun j => !comp.contains j)).length := by
    by_contra hge
    rw [List.getD_eq_default _ _ (by simpa using Nat.le_of_not_lt hge)] at hmem
    exact absurd hmem (by simp)
  rw [List.getD_eq_getElem?_getD, List.getElem?_map, List.getElem?_eq_getElem hu] at hmem
  have hiu : i = ((List.range lines.length).filter (fun j => !comp.contains j))[u] := by
    simpa using hmem
  have hnd : ((List.range lines.length).filter (fun j => !comp.contains j)).Nodup :=
    (List.nodup_range _).filter _
  refine process_lines_inject_blank ctx bs oracle inject m lines ws e _ 0 u st₀ i
    (by simpa using hinj) hu ?_ ?_ hlen
  · rw [List.getD_eq_getElem?_getD, List.getElem?_eq_getElem hu]
    exact hiu.symm
  · intro l hl hll hveq
    rw [List.getD_eq_getElem?_getD, List.getElem?_eq_getElem hll] at hveq
    simp only [Option.getD_some] at hveq
    have hpair : ((List.range lines.length).filter (fun j => !comp.contains j)).Pairwise
        (· < ·) := (List.pairwise_lt_range _).filter _
    rw [List.pairwise_iff_getElem] at hpair
    have hlt := hpair u l hu hll hl
    omega


theorem mem_getD_map_singleton (l : List Nat) (u i : Nat) :
    i ∈ ((l.map (fun j => [j])).getD u []) ↔ u < l.length ∧ l.getD u 0 = i := by
  by_cases hu : u < l.length
  · rw [List.getD_eq_getElem?_getD, List.getElem?_map, List.getElem?_eq_getElem hu]
    rw [List.getD_eq_getElem?_getD, List.getElem?_eq_getElem hu]
    simp [hu, eq_comm]
  · rw [List.getD_eq_default _ _ (by simpa using Nat.le_of_not_lt hu)]
    simp [hu]

/-- C10: in a fresh run without pause or cancel signals, whenever the
worker future of any one submitted unit raises (the injected failure at
that unit's position — other units may succeed or fail arbitrarily),
every line of that unit is still recorded as completed with the
default-constructed blank annotation — every mashup tag the empty
string, not the unknown sentinel — and the run completes without
raising. -/
theorem C10_unit_failure_blank (bs : BatchSettings) (oracle : Oracle)
    (inject : Nat → Option String) (lines : List SrtLine)
    (mn mid sp lp : String) (ws bsz si : Nat) (now : PyNum)
    (u : Nat) (e : String) (hinj : inject u = some e) (i : Nat)
    (hmem : i ∈ (annotate_subtitle_file bs oracle inject lines mn mid sp lp ws bsz si
        false false false none OutputLoad.absent now).submitted.getD u []) :
    (annotate_subtitle_file bs oracle inject lines mn mid sp lp ws bsz si
        false false false none OutputLoad.absent now).final_results.getD i none
      = some (blank_record (if mid != "" then mid else mn) i
          (lines.getD i ⟨"", 0, 0⟩).text (lines.getD i ⟨"", 0, 0⟩).start
          (lines.getD i ⟨"", 0, 0⟩).end_ now) ∧
    (blank_record (if mid != "" then mid else mn) i
          (lines.getD i ⟨"", 0, 0⟩).text (lines.getD i ⟨"", 0, 0⟩).start
          (lines.getD i ⟨"", 0, 0⟩).end_ now).mashup_tags = MashupTags.dflt ∧
    MashupTags.dflt.sentence_type = "" ∧
    i ∈ (annotate_subtitle_file bs oracle inject lines mn mid sp lp ws bsz si
        false false false none OutputLoad.absent now).completed_indices ∧
    (annotate_subtitle_file bs oracle inject lines mn mid sp lp ws bsz si
        false false false none OutputLoad.absent now).raised = none := by
  by_cases hle : lines.isEmpty
  · have hl : lines = [] := by
      cases lines with
      | nil => rfl
      | cons a t => simp [List.isEmpty] at hle
    subst hl
    rw [annotate_subtitle_file] at hmem
    simp at hmem
  · have hlef : lines.isEmpty = false := by simpa using hle
    have hres : engine_resume_init lines.length false none OutputLoad.absent
        = ([], List.replicate lines.length none) := rfl
    have hne : lines ≠ [] := by
      cases lines with
      | nil => simp [List.isEmpty] at hlef
      | cons a t => exact List.cons_ne_nil a t
    have hrem : ¬((lines.length : Int) - ((0 : Nat) : Int) ≤ 0) := by
      simp
      exact hne
    rw [annotate_subtitle_file, hlef] at hmem ⊢
    simp only [Bool.false_eq_true, if_false, hres, List.length_nil, Nat.cast_zero] at hmem ⊢
    rw [if_neg (by simpa using hrem)] at hmem ⊢
    rw [engine_finale_submitted] at hmem
    by_cases hub : resolve_batch_size bsz lines.length > 1
    · rw [if_pos hub] at hmem ⊢
      have hbsz : 0 < resolve_batch_size bsz lines.length := by omega
      set ctx : SaveCtx :=
        ⟨mid, mn, sp, lp, lines.length, resolve_batch_size bsz lines.length, si, now⟩ with hctx
      set st₀ : EngState :=
        ⟨List.replicate lines.length none, 0, [], 0, [], 0⟩ with hst₀
      set bb := build_batches lines [] ws (resolve_batch_size bsz lines.length) false with hbb
      have hnev : bb.getD u [] ≠ [] := by
        intro hh
        simp only [engine_phase_batch] at hmem
        rw [submit_units_all] at hmem
        rw [getD_map_idx, ← hbb, hh] at hmem
        exact absurd hmem (by simp)
      have hu : u < bb.length := by
        by_contra hge
        rw [List.getD_eq_default _ _ (Nat.le_of_not_lt hge)] at hnev
        exact hnev rfl
      have hmemb : bb.getD u [] ∈ bb := by
        rw [List.getD_eq_getElem?_getD, List.getElem?_eq_getElem hu]
        exact List.getElem_mem hu
      have hiidx : i ∈ (bb.getD u []).map BatchItem.idx := by
        simp only [engine_phase_batch] at hmem
        rw [submit_units_all] at hmem
        rw [getD_map_idx, ← hbb] at hmem
        exact hmem
      have hi : i < lines.length :=
        (build_batches_exclude lines [] ws (resolve_batch_size bsz lines.length) false
          (bb.getD u []) (hbb ▸ hmemb) i hiidx).2
      have hval := engine_phase_batch_inject_blank ctx bs oracle inject
        (if mid != "" then mid else mn) mn lines ws (resolve_batch_size bsz lines.length)
        [] st₀ u e hinj i hmem (by rw [hst₀]; simpa using hi)
      have hlen2 : (engine_phase_batch ctx bs oracle inject false false
          (if mid != "" then mid else mn) mn lines ws (resolve_batch_size bsz lines.length)
          [] st₀).2.results.length = lines.length := by
        rw [engine_phase_batch_results_length, hst₀]
        exact List.length_replicate _ _
      have hcov : ∀ i', i' < lines.length →
          ((engine_phase_batch ctx bs oracle inject false false
            (if mid != "" then mid else mn) mn lines ws (resolve_batch_size bsz lines.length)
            [] st₀).2.results.getD i' none).isSome = true := by
        intro i' hi'
        refine engine_phase_batch_cover ctx bs oracle inject _ mn lines ws _ [] st₀ i' ?_
          hbsz hi' rfl
        rw [hst₀]
        simpa using hi'
      set aft := engine_phase_batch ctx bs oracle inject false false
          (if mid != "" then mid else mn) mn lines ws (resolve_batch_size bsz lines.length)
          [] st₀ with haft
      obtain ⟨hrec, hdel, hrai, hcomp, hsav⟩ :=
        engine_finale_complete ctx aft.1 aft.2 hlen2 hcov
      refine ⟨?_, rfl, rfl, ?_, hrai⟩
      · rw [engine_finale_final_results]
        exact hval
      · rw [hcomp, haft, engine_phase_batch_completed]
        exact Or.inr ⟨bb.getD u [], hbb ▸ hmemb, hiidx⟩
    · rw [if_neg hub] at hmem ⊢
      set ctx : SaveCtx :=
        ⟨mid, mn, sp, lp, lines.length, resolve_batch_size bsz lines.length, si, now⟩ with hctx
      set st₀ : EngState :=
        ⟨List.replicate lines.length none, 0, [], 0, [], 0⟩ with hst₀
      set fl := (List.range lines.length).filter
          (fun j => !(([] : List Nat).contains j)) with hfl
      have hmem' : u < fl.length ∧ fl.getD u 0 = i := by
        refine (mem_getD_map_singleton fl u i).mp ?_
        simp only [engine_phase_single] at hmem
        rw [submit_lines_all] at hmem
        simp only [] at hmem
        exact hmem
      have hu : u < fl.length := hmem'.1
      have hifl : i ∈ fl := by
        rw [← hmem'.2, List.getD_eq_getElem?_getD, List.getElem?_eq_getElem hu]
        exact List.getElem_mem hu
      have hi : i < lines.length := by
        rw [hfl] at hifl
        exact List.mem_range.mp (List.mem_filter.mp hifl).1
      have hval := engine_phase_single_inject_blank ctx bs oracle inject
        (if mid != "" then mid else mn) lines ws [] st₀ u e hinj i hmem
        (by rw [hst₀]; simpa using hi)
      have hlen2 : (engine_phase_single ctx bs oracle inject false false
          (if mid != "" then mid else mn) lines ws [] st₀).2.results.length
          = lines.length := by
        rw [engine_phase_single_results_length, hst₀]
        exact List.length_replicate _ _
      have hcov : ∀ i', i' < lines.length →
          ((engine_phase_single ctx bs oracle inject false false
            (if mid != "" then mid else mn) lines ws [] st₀).2.results.getD i' none).isSome
            = true := by
        intro i' hi'
        refine engine_phase_single_cover ctx bs oracle inject _ lines ws [] st₀ i' ?_ hi' rfl
        rw [hst₀]
        simpa using hi'
      set aft := engine_phase_single ctx bs oracle inject false false
          (if mid != "" then mid else mn) lines ws [] st₀ with haft
      obtain ⟨hrec, hdel, hrai, hcomp, hsav⟩ :=
        engine_finale_complete ctx aft.1 aft.2 hlen2 hcov
      refine ⟨?_, rfl, rfl, ?_, hrai⟩
      · rw [engine_finale_final_results]
        exact hval
      · rw [hcomp, haft, engine_phase_single_completed]
        exact Or.inr (hfl ▸ hifl)

set_option maxRecDepth 10000 in
/-- Witness for C10 at a concrete mixed three-line run: only the second
line's future raises, the other two lines go through the backend. -/
theorem C10_witness :
    (fun n => if n = 1 then some "RuntimeError" else none : Nat → Option String) 1
        = some "RuntimeError" ∧
    1 ∈ (annotate_subtitle_file ⟨true, 0⟩ (fun _ => Except.error "E")
        (fun n => if n = 1 then some "RuntimeError" else none)
        [⟨"甲", 0, 1⟩, ⟨"乙", 1, 2⟩, ⟨"丙", 2, 3⟩] "n" "m" "p" "prov" 1 1 1
        false false false none OutputLoad.absent 0).submitted.getD 1 [] ∧
    ((annotate_subtitle_file ⟨true, 0⟩ (fun _ => Except.error "E")
        (fun n => if n = 1 then some "RuntimeError" else none)
        [⟨"甲", 0, 1⟩, ⟨"乙", 1, 2⟩, ⟨"丙", 2, 3⟩] "n" "m" "p" "prov" 1 1 1
        false false false none OutputLoad.absent 0).final_results.getD 1 none
      = some (blank_record (if "m" != "" then "m" else "n") 1
          (([⟨"甲", 0, 1⟩, ⟨"乙", 1, 2⟩, ⟨"丙", 2, 3⟩] : List SrtLine).getD 1 ⟨"", 0, 0⟩).text
          (([⟨"甲", 0, 1⟩, ⟨"乙", 1, 2⟩, ⟨"丙", 2, 3⟩] : List SrtLine).getD 1 ⟨"", 0, 0⟩).start
          (([⟨"甲", 0, 1⟩, ⟨"乙", 1, 2⟩, ⟨"丙", 2, 3⟩] : List SrtLine).getD 1 ⟨"", 0, 0⟩).end_ 0) ∧
    (blank_record (if "m" != "" then "m" else "n") 1
          (([⟨"甲", 0, 1⟩, ⟨"乙", 1, 2⟩, ⟨"丙", 2, 3⟩] : List SrtLine).getD 1 ⟨"", 0, 0⟩).text
          (([⟨"甲", 0, 1⟩, ⟨"乙", 1, 2⟩, ⟨"丙", 2, 3⟩] : List SrtLine).getD 1 ⟨"", 0, 0⟩).start
          (([⟨"甲", 0, 1⟩, ⟨"乙", 1, 2⟩, ⟨"丙", 2, 3⟩] : List SrtLine).getD 1 ⟨"", 0, 0⟩).end_ 0).mashup_tags = MashupTags.dflt ∧
    MashupTags.dflt.sentence_type = "" ∧
    1 ∈ (annotate_subtitle_file ⟨true, 0⟩ (fun _ => Except.error "E")
        (fun n => if n = 1 then some "RuntimeError" else none)
        [⟨"甲", 0, 1⟩, ⟨"乙", 1, 2⟩, ⟨"丙", 2, 3⟩] "n" "m" "p" "prov" 1 1 1
        false false false none OutputLoad.absent 0).completed_indices ∧
    (annotate_subtitle_file ⟨true, 0⟩ (fun _ => Except.error "E")
        (fun n => if n = 1 then some "RuntimeError" else none)
        [⟨"甲", 0, 1⟩, ⟨"乙", 1, 2⟩, ⟨"丙", 2, 3⟩] "n" "m" "p" "prov" 1 1 1
        false false false none OutputLoad.absent 0).raised = none) :=
  ⟨rfl, by decide,
    C10_unit_failure_blank ⟨true, 0⟩ (fun _ => Except.error "E")
      (fun n => if n = 1 then some "RuntimeError" else none)
      [⟨"甲", 0, 1⟩, ⟨"乙", 1, 2⟩, ⟨"丙", 2, 3⟩] "n" "m" "p" "prov" 1 1 1 0
      1 "RuntimeError" rfl 1 (by decide)⟩
